import Mathlib

/-!
Verification of the reviewer supervision engine of `scripts/agent/common.py`.

The development shallowly embeds the pure core of the module:
rate-limit detection (`_is_rate_limit_error`), the activity-probe state
machine (`_init_probe_state`, `_update_probe_state`,
`_read_new_stdout_chunk`, `_extract_probe_event` and friends), the final
output extractors (`_extract_codex_final_output`,
`_extract_claude_final_output`), the fallback logic of `Reviewer.run`,
and one iteration of the polling loop of `Reviewer._execute`.

File access, subprocess management and wall-clock reads are inherently
effectful; they are embedded by making the values the Python code reads
from the outside world (file contents, CPU samples, clock readings,
subprocess exit) explicit inputs of the corresponding Lean functions.
Strings index by characters, matching Python's text-mode reads.
-/

namespace AgentCommon

/-! ## Python string primitives used by the module -/

/-- Opening curly brace character (written numerically). -/
def lbrace : Char := Char.ofNat 123

/-- Closing curly brace character (written numerically). -/
def rbrace : Char := Char.ofNat 125

/-- ASCII whitespace recognized by Python's `str.strip` and `\s`. -/
def isPyWs (c : Char) : Bool :=
  c = ' ' || c = '\t' || c = '\n' || c = '\r' ||
  c = Char.ofNat 11 || c = Char.ofNat 12

/-- Drop trailing whitespace characters (Python `str.rstrip`). -/
def stripR (l : List Char) : List Char :=
  (l.reverse.dropWhile isPyWs).reverse

/-- Python `str.strip()`: drop leading and trailing whitespace. -/
def pyStrip (s : String) : String :=
  String.mk ((stripR s.data).dropWhile isPyWs)

/-- Python `needle in hay` substring test on character lists. -/
def containsAux (n : List Char) : List Char → Bool
  | [] => n.isEmpty
  | c :: cs => n.isPrefixOf (c :: cs) || containsAux n cs

/-- Python `needle in hay` substring test on strings. -/
def pyContains (hay needle : String) : Bool :=
  containsAux needle.data hay.data

/-- Python `str.lower()` (per-character lowering). -/
def pyLower (s : String) : String :=
  String.mk (s.data.map Char.toLower)

/-- Core of Python `str.splitlines(keepends=True)` restricted to the
line terminators produced by the subprocess logs. -/
def splitlinesKeepAux : List Char → List Char → List String
  | [], acc => if acc.isEmpty then [] else [String.mk acc.reverse]
  | '\r' :: '\n' :: cs, acc =>
      String.mk (acc.reverse ++ ['\r', '\n']) :: splitlinesKeepAux cs []
  | '\n' :: cs, acc =>
      String.mk (acc.reverse ++ ['\n']) :: splitlinesKeepAux cs []
  | '\r' :: cs, acc =>
      String.mk (acc.reverse ++ ['\r']) :: splitlinesKeepAux cs []
  | c :: cs, acc => splitlinesKeepAux cs (c :: acc)

/-- Python `str.splitlines(keepends=True)`. -/
def splitlinesKeep (s : String) : List String :=
  splitlinesKeepAux s.data []

/-- Core of Python `str.splitlines()` (terminators removed). -/
def pySplitlinesAux : List Char → List Char → List String
  | [], acc => if acc.isEmpty then [] else [String.mk acc.reverse]
  | '\r' :: '\n' :: cs, acc => String.mk acc.reverse :: pySplitlinesAux cs []
  | '\n' :: cs, acc => String.mk acc.reverse :: pySplitlinesAux cs []
  | '\r' :: cs, acc => String.mk acc.reverse :: pySplitlinesAux cs []
  | c :: cs, acc => pySplitlinesAux cs (c :: acc)

/-- Python `str.splitlines()`. -/
def pySplitlines (s : String) : List String :=
  pySplitlinesAux s.data []

/-- Python `str.startswith(prefix)`. -/
def pyStartsWith (s pre : String) : Bool :=
  pre.data.isPrefixOf s.data

/-- Python `str.endswith(("\n", "\r"))` as used on probe lines. -/
def endsWithNl (s : String) : Bool :=
  match s.data.getLast? with
  | some c => c = '\n' || c = '\r'
  | none => false

/-! ## JSON values and a model of `json.loads`

`json.loads` is modelled by a fuel-indexed recursive-descent parser
over the character list of one line.  Numbers are kept as their raw
lexeme: no classified event ever inspects a numeric value. -/

/-- JSON values as produced by `json.loads`. -/
inductive Json : Type where
  | null : Json
  | bool (b : Bool) : Json
  | num (lexeme : String) : Json
  | str (s : String) : Json
  | arr (items : List Json) : Json
  | obj (fields : List (String × Json)) : Json

/-- Python `dict` lookup: with duplicate keys the last occurrence wins,
matching `json.loads` object construction. -/
def dictGet (fields : List (String × Json)) (key : String) : Option Json :=
  ((fields.filter (fun kv => kv.fst = key)).getLast?).map (fun kv => kv.snd)

/-- JSON inter-token whitespace. -/
def isJsonWs (c : Char) : Bool :=
  c = ' ' || c = '\t' || c = '\n' || c = '\r'

/-- Skip JSON whitespace. -/
def skipWs : List Char → List Char
  | [] => []
  | c :: cs => if isJsonWs c then skipWs cs else c :: cs

/-- Parse the body of a JSON string literal after the opening quote;
returns the decoded characters and the remainder after the closing
quote. -/
def parseStrAux : List Char → Option (List Char × List Char)
  | [] => none
  | '"' :: cs => some ([], cs)
  | '\\' :: c :: cs =>
      let esc : Option Char :=
        if c = '"' then some '"'
        else if c = '\\' then some '\\'
        else if c = '/' then some '/'
        else if c = 'n' then some '\n'
        else if c = 't' then some '\t'
        else if c = 'r' then some '\r'
        else if c = 'b' then some (Char.ofNat 8)
        else if c = 'f' then some (Char.ofNat 12)
        else none
      match esc with
      | some e => (parseStrAux cs).map (fun p => (e :: p.fst, p.snd))
      | none => none
  | '\\' :: [] => none
  | c :: cs => (parseStrAux cs).map (fun p => (c :: p.fst, p.snd))

/-- Characters that may continue a JSON number lexeme. -/
def numChar (c : Char) : Bool :=
  c.isDigit || c = '-' || c = '+' || c = '.' || c = 'e' || c = 'E'

mutual

/-- Parse one JSON value (fuel-indexed). -/
def parseVal : Nat → List Char → Option (Json × List Char)
  | 0, _ => none
  | Nat.succ fuel, cs =>
    match skipWs cs with
    | [] => none
    | c :: r =>
      if c = lbrace then
        match skipWs r with
        | [] => none
        | d :: r2 =>
          if d = rbrace then some (Json.obj [], r2)
          else
            (parseObjItems fuel (d :: r2)).map
              (fun p => (Json.obj p.fst, p.snd))
      else if c = '[' then
        match skipWs r with
        | [] => none
        | d :: r2 =>
          if d = ']' then some (Json.arr [], r2)
          else
            (parseArrItems fuel (d :: r2)).map
              (fun p => (Json.arr p.fst, p.snd))
      else if c = '"' then
        (parseStrAux r).map (fun p => (Json.str (String.mk p.fst), p.snd))
      else if c = 'n' then
        match r with
        | 'u' :: 'l' :: 'l' :: r2 => some (Json.null, r2)
        | _ => none
      else if c = 't' then
        match r with
        | 'r' :: 'u' :: 'e' :: r2 => some (Json.bool true, r2)
        | _ => none
      else if c = 'f' then
        match r with
        | 'a' :: 'l' :: 's' :: 'e' :: r2 => some (Json.bool false, r2)
        | _ => none
      else if c.isDigit || c = '-' then
        some (Json.num (String.mk (c :: r.takeWhile numChar)),
              r.dropWhile numChar)
      else none
termination_by structural fuel _ => fuel

/-- Parse the comma-separated fields of a JSON object after the opening
brace (fuel-indexed). -/
def parseObjItems : Nat → List Char → Option (List (String × Json) × List Char)
  | 0, _ => none
  | Nat.succ fuel, cs =>
    match skipWs cs with
    | '"' :: r =>
      match parseStrAux r with
      | some (k, r1) =>
        match skipWs r1 with
        | ':' :: r2 =>
          match parseVal fuel r2 with
          | some (v, r3) =>
            match skipWs r3 with
            | ',' :: r4 =>
              (parseObjItems fuel r4).map
                (fun p => ((String.mk k, v) :: p.fst, p.snd))
            | d :: r4 =>
              if d = rbrace then some ([(String.mk k, v)], r4) else none
            | [] => none
          | none => none
        | _ => none
      | none => none
    | _ => none
termination_by structural fuel _ => fuel

/-- Parse the comma-separated items of a JSON array after the opening
bracket (fuel-indexed). -/
def parseArrItems : Nat → List Char → Option (List Json × List Char)
  | 0, _ => none
  | Nat.succ fuel, cs =>
    match parseVal fuel cs with
    | some (v, r) =>
      match skipWs r with
      | ',' :: r2 =>
        (parseArrItems fuel r2).map (fun p => (v :: p.fst, p.snd))
      | ']' :: r2 => some ([v], r2)
      | _ => none
    | none => none
termination_by structural fuel _ => fuel

end

/-- Model of `json.loads` on one line: parse a full JSON value and
require that only whitespace remains; any parse error yields `none`
(the caller skips such lines). -/
def jsonLoads (s : String) : Option Json :=
  match parseVal (2 * s.length + 4) s.data with
  | some (v, r) => if (skipWs r).isEmpty then some v else none
  | none => none

/-! ## Rate-limit detection (`_RATE_LIMIT_PATTERNS`, `_is_rate_limit_error`) -/

/-- The fixed literal substrings of `_RATE_LIMIT_PATTERNS`. -/
def RATE_LIMIT_PATTERNS : List String :=
  ["rate_limit", "rate limit", "usage_limit", "usage limit",
   "429 too many", "http 429", "too many requests"]

/-- `_is_rate_limit_error(stdout, stderr)`: scan the lowercased
newline-joined combination of stdout and stderr for any pattern. -/
def isRateLimitError (stdout stderr : String) : Bool :=
  let combined := pyLower (stdout ++ "\n" ++ stderr)
  RATE_LIMIT_PATTERNS.any (fun pattern => pyContains combined pattern)

/-! ## Activity probes -/

/-- Classification kind of one structured event. -/
inductive ProbeEventKind : Type where
  | progress : ProbeEventKind
  | final : ProbeEventKind
deriving Repr, DecidableEq

/-- Per-invocation probe parsing state (the dict built by
`_init_probe_state`; for the generic probe Python uses an empty dict
whose reads all take the same defaults, so the one record covers both). -/
structure ProbeState : Type where
  offset : Nat
  tail : String
  progress_count : Nat
  final_count : Nat
  last_progress : Option String
  last_final : Option String
deriving Repr, DecidableEq

/-- `_init_probe_state`. -/
def initProbeState (_activity_probe : String) : ProbeState :=
  { offset := 0, tail := "", progress_count := 0, final_count := 0,
    last_progress := none, last_final := none }

/-- `_extract_nested_str(data, path)`. -/
def extractNestedStr (data : Json) (path : List String) : Option String :=
  match path with
  | [] =>
    match data with
    | Json.str s => some s
    | _ => none
  | key :: rest =>
    match data with
    | Json.obj fields =>
      match dictGet fields key with
      | some v => extractNestedStr v rest
      | none => none
    | _ => none

/-- Whitespace-run collapsing core of `_compact_event_label`
(`re.sub` of one or more whitespace characters by a single space); the
flag records whether the previous character was whitespace. -/
def collapseWsAux : Bool → List Char → List Char
  | _, [] => []
  | lastWs, c :: cs =>
    if isPyWs c then
      if lastWs then collapseWsAux true cs
      else ' ' :: collapseWsAux true cs
    else c :: collapseWsAux false cs

/-- `_compact_event_label(label)`: strip, collapse whitespace runs,
truncate to 80 characters. -/
def compactEventLabel (s : String) : String :=
  String.mk ((collapseWsAux false (pyStrip s).data).take 80)

/-- `_extract_codex_event(obj)`: classify Codex JSONL events. -/
def extractCodexEvent (obj : Json) : Option (ProbeEventKind × String) :=
  match extractNestedStr obj ["type"] with
  | none => none
  | some top_type =>
    if top_type = "thread.started" || top_type = "turn.started" ||
       top_type = "item.started" then
      some (ProbeEventKind.progress, compactEventLabel top_type)
    else if top_type = "turn.completed" || top_type = "thread.completed" then
      some (ProbeEventKind.final, compactEventLabel top_type)
    else if top_type = "item.completed" then
      match extractNestedStr obj ["item", "type"] with
      | none => some (ProbeEventKind.progress, "item.completed")
      | some item_type =>
        if item_type = "reasoning" || item_type = "tool_call" ||
           item_type = "tool_result" then
          some (ProbeEventKind.progress,
                "item." ++ compactEventLabel item_type)
        else if item_type = "agent_message" ||
                item_type = "assistant_message" then
          some (ProbeEventKind.final, "item." ++ compactEventLabel item_type)
        else
          some (ProbeEventKind.progress,
                "item." ++ compactEventLabel item_type)
    else if top_type = "error" || top_type = "turn.failed" then
      some (ProbeEventKind.final, compactEventLabel top_type)
    else
      some (ProbeEventKind.progress, compactEventLabel top_type)

/-- `_extract_claude_event(obj)`: classify Claude stream-json events. -/
def extractClaudeEvent (obj : Json) : Option (ProbeEventKind × String) :=
  match extractNestedStr obj ["type"] with
  | none => none
  | some top_type =>
    if top_type = "result" || top_type = "assistant" then
      some (ProbeEventKind.final, compactEventLabel top_type)
    else if top_type = "system" then
      match extractNestedStr obj ["subtype"] with
      | some subtype => some (ProbeEventKind.progress,
                              compactEventLabel ("system." ++ subtype))
      | none => some (ProbeEventKind.progress, compactEventLabel "system")
    else if top_type = "stream_event" then
      match extractNestedStr obj ["event", "type"] with
      | none => some (ProbeEventKind.progress, "stream_event")
      | some event_type =>
        if event_type = "message_stop" then
          some (ProbeEventKind.final,
                compactEventLabel ("stream." ++ event_type))
        else
          some (ProbeEventKind.progress,
                compactEventLabel ("stream." ++ event_type))
    else
      some (ProbeEventKind.progress, compactEventLabel top_type)

/-- `_extract_probe_event(activity_probe, obj)`: dispatch on the probe
kind; non-object values are never classified. -/
def extractProbeEvent (activity_probe : String) (obj : Json) :
    Option (ProbeEventKind × String) :=
  match obj with
  | Json.obj _ =>
    if activity_probe = "codex_json" then extractCodexEvent obj
    else if activity_probe = "claude_stream_json" then extractClaudeEvent obj
    else none
  | _ => none

/-- `_read_new_stdout_chunk(stdout_path, state)`: seek to the recorded
offset, read to end of file, record the new position.  The file is
passed as its current full content. -/
def readNewStdoutChunk (content : String) (st : ProbeState) :
    String × ProbeState :=
  (String.mk (content.data.drop st.offset),
   { st with offset := max st.offset content.length })

/-- One step of the classification loop of `_update_probe_state` over a
complete line. -/
def classifyLine (activity_probe : String) (st : ProbeState)
    (raw_line : String) : ProbeState :=
  let line := pyStrip raw_line
  if !(pyStartsWith line (String.mk [lbrace])) then st
  else
    match jsonLoads line with
    | none => st
    | some obj =>
      match extractProbeEvent activity_probe obj with
      | none => st
      | some (ProbeEventKind.progress, lab) =>
        { st with progress_count := st.progress_count + 1,
                  last_progress := some lab }
      | some (ProbeEventKind.final, lab) =>
        { st with final_count := st.final_count + 1,
                  last_final := some lab }

/-- The counters `_update_probe_state` returns alongside the state. -/
def probeReturn (st : ProbeState) :
    ProbeState × (Nat × Option String × Nat × Option String) :=
  (st, (st.progress_count, st.last_progress,
        st.final_count, st.last_final))

/-- Hold back an unterminated trailing fragment: returns the new
`pending_tail` and the complete lines to classify. -/
def splitPendingTail (lines0 : List String) : String × List String :=
  match lines0.getLast? with
  | some lastLine =>
    if !(endsWithNl lastLine) then (lastLine, lines0.dropLast)
    else ("", lines0)
  | none => ("", lines0)

/-- Classify a freshly read non-empty chunk: prepend the held-back
tail, split into lines, hold back the new tail, fold the classifier
over the complete lines. -/
def processChunk (activity_probe : String) (st1 : ProbeState)
    (chunk : String) : ProbeState :=
  let text := st1.tail ++ chunk
  let p := splitPendingTail (splitlinesKeep text)
  let st2 := { st1 with tail := p.fst }
  p.snd.foldl (classifyLine activity_probe) st2

/-- `_update_probe_state(activity_probe, stdout_path, state)`: read the
newly appended chunk, and unless it is empty, split it into lines
holding back an unterminated tail and classify each complete line;
return the updated state with the returned counters. -/
def updateProbeState (activity_probe : String) (content : String)
    (st : ProbeState) :
    ProbeState × (Nat × Option String × Nat × Option String) :=
  if activity_probe = "generic" then (st, (0, none, 0, none))
  else
    if (readNewStdoutChunk content st).fst.data.isEmpty then
      probeReturn (readNewStdoutChunk content st).snd
    else
      probeReturn (processChunk activity_probe
        (readNewStdoutChunk content st).snd
        (readNewStdoutChunk content st).fst)

/-! ## Final-output extraction -/

/-- `_iter_json_lines(raw_output)`: parse newline-delimited JSON
objects, skipping lines that do not start with an opening brace or do
not parse. -/
def iterJsonLines (raw_output : String) : List Json :=
  (pySplitlines raw_output).filterMap (fun line =>
    let stripped := pyStrip line
    if !(pyStartsWith stripped (String.mk [lbrace])) then none
    else jsonLoads stripped)

/-- Loop body of `_extract_codex_final_output`: update the running
`final_text` accumulator with one parsed object. -/
def codexStep (final_text : Option String) (obj : Json) : Option String :=
  match obj with
  | Json.obj fields =>
    match dictGet fields "type" with
    | some (Json.str t) =>
      if t = "item.completed" then
        match dictGet fields "item" with
        | some (Json.obj item) =>
          match dictGet item "type" with
          | some (Json.str item_type) =>
            if item_type = "agent_message" ||
               item_type = "assistant_message" then
              match dictGet item "text" with
              | some (Json.str text) => some text
              | _ => final_text
            else final_text
          | _ => final_text
        | _ => final_text
      else final_text
    | _ => final_text
  | _ => final_text

/-- `_extract_codex_final_output(raw_output)`. -/
def extractCodexFinalOutput (raw_output : String) : String :=
  match (iterJsonLines raw_output).foldl codexStep none with
  | some text => text
  | none => raw_output

/-- `_extract_claude_message_text(message)`: concatenated text blocks
of an assistant message; the argument is the looked-up `message` field
(`none` models Python's `None`). -/
def extractClaudeMessageText (message : Option Json) : Option String :=
  match message with
  | some (Json.obj fields) =>
    match dictGet fields "content" with
    | some (Json.arr blocks) =>
      let parts := blocks.filterMap (fun block =>
        match block with
        | Json.obj bf =>
          match dictGet bf "type" with
          | some (Json.str bt) =>
            if bt = "text" then
              match dictGet bf "text" with
              | some (Json.str t) => some t
              | _ => none
            else none
          | _ => none
        | _ => none)
      if parts.isEmpty then none else some (String.join parts)
    | _ => none
  | _ => none

/-- Loop body of `_extract_claude_final_output`: update the running
`(result_text, assistant_text)` accumulators with one parsed object. -/
def claudeStep (acc : Option String × Option String) (obj : Json) :
    Option String × Option String :=
  match obj with
  | Json.obj fields =>
    match dictGet fields "type" with
    | some (Json.str t) =>
      if t = "result" then
        match dictGet fields "result" with
        | some (Json.str v) => (some v, acc.snd)
        | _ => acc
      else if t = "assistant" then
        match extractClaudeMessageText (dictGet fields "message") with
        | some msg => (acc.fst, some msg)
        | none => acc
      else acc
    | _ => acc
  | _ => acc

/-- `_extract_claude_final_output(raw_output)`. -/
def extractClaudeFinalOutput (raw_output : String) : String :=
  match (iterJsonLines raw_output).foldl claudeStep (none, none) with
  | (some result_text, _) => result_text
  | (none, some assistant_text) => assistant_text
  | (none, none) => raw_output

/-- `_extract_reviewer_output(activity_probe, raw_output)`. -/
def extractReviewerOutput (activity_probe raw_output : String) : String :=
  if activity_probe = "codex_json" then extractCodexFinalOutput raw_output
  else if activity_probe = "claude_stream_json" then
    extractClaudeFinalOutput raw_output
  else raw_output

/-! ## The `Reviewer` fallback logic (`Reviewer.run`)

`Reviewer._execute` performs I/O; its observable outcome for one
invocation — raise `subprocess.TimeoutExpired`, or return
`(stdout, stderr, returncode)` — is abstracted into an environment
mapping each reviewer to its outcome. -/

/-- `subprocess.TimeoutExpired(cmd, timeout, output=…, stderr=…)` as
raised by `_execute`. -/
structure TimeoutExpired : Type where
  cmd : String
  timeout : Option ℚ
  output : String
  stderr : String
deriving Repr, DecidableEq

/-- The observable outcome of one `_execute` call. -/
inductive ExecOutcome : Type where
  | timeout (e : TimeoutExpired) : ExecOutcome
  | done (stdout stderr : String) (returncode : Int) : ExecOutcome

/-- Whether an `_execute` outcome is a timeout. -/
def ExecOutcome.isTimeout : ExecOutcome → Bool
  | ExecOutcome.timeout _ => true
  | ExecOutcome.done _ _ _ => false

/-- The `Reviewer` dataclass (its configuration fields; prompts and
limits are threaded through `run` unchanged and do not affect the
fallback decisions, so they live in the environment). -/
inductive Reviewer : Type where
  | mk (name cmd activity_probe : String)
       (fallback : Option Reviewer)
       (rate_limit_fallback : Option Reviewer) : Reviewer

/-- Field accessor. -/
def Reviewer.activity_probe : Reviewer → String
  | Reviewer.mk _ _ p _ _ => p

/-- Field accessor. -/
def Reviewer.fallback : Reviewer → Option Reviewer
  | Reviewer.mk _ _ _ f _ => f

/-- Field accessor. -/
def Reviewer.rate_limit_fallback : Reviewer → Option Reviewer
  | Reviewer.mk _ _ _ _ g => g

/-- An environment assigning to every reviewer the outcome of its
`_execute` call. -/
def ExecEnv : Type := Reviewer → ExecOutcome

/-- `Reviewer.run(prompt, …)`: execute, then apply the fallback policy
in source order — timeout first (generic fallback or re-raise), then
the rate-limit check (rate-limit fallback preferred over the generic
one, warning and fall-through when neither exists), then the non-zero
exit check (generic fallback, warning and fall-through when none), and
finally extraction of the reviewer output. -/
def Reviewer.run (env : ExecEnv) : Reviewer → Except TimeoutExpired String
  | Reviewer.mk name cmd probe fb rlf =>
    match env (Reviewer.mk name cmd probe fb rlf) with
    | ExecOutcome.timeout e =>
      match fb with
      | some f => Reviewer.run env f
      | none => Except.error e
    | ExecOutcome.done raw_output _stderr_output returncode =>
      if isRateLimitError raw_output _stderr_output then
        match rlf, fb with
        | some f, _ => Reviewer.run env f
        | none, some f => Reviewer.run env f
        | none, none =>
          -- no fallback available: warn and continue to the exit check,
          -- where `fallback` is still absent, hence extraction
          Except.ok (extractReviewerOutput probe raw_output)
      else
        if returncode ≠ 0 then
          match fb with
          | some f => Reviewer.run env f
          | none => Except.ok (extractReviewerOutput probe raw_output)
        else Except.ok (extractReviewerOutput probe raw_output)

/-! ## The polling loop of `Reviewer._execute`

One loop iteration is a pure function of the current supervisor state
and of the values the iteration reads from the outside world: the
clock readings taken during the iteration (`time.monotonic()` is
called several times; each call site gets its own reading, constrained
only by monotonicity hypotheses in the theorems), the combined log
size, the CPU samples, the current stdout content seen by the probe,
and whether `proc.wait` observed the subprocess exit.  Printing to
stderr and the computation of the sleep duration have no effect on the
supervisor state and are not represented. -/

/-- Which limit fired on forced termination. -/
inductive LimitKind : Type where
  | wall : LimitKind
  | stall : LimitKind
deriving Repr, DecidableEq

/-- Supervisor state carried across polling iterations (locals of
`_execute` at the top of the `while` loop). -/
structure PollState : Type where
  timeout : Option ℚ
  stall_timeout : Option ℚ
  heartbeat_secs : Option ℚ
  deadline : Option ℚ
  next_heartbeat : Option ℚ
  last_activity : ℚ
  last_output : ℚ
  last_size : Nat
  last_cpu : Option ℚ
  last_cpu_tree : Option ℚ
  probe_state : ProbeState
  last_progress_emit : ℚ
  last_progress_count : Nat
  timeout_value : Option ℚ
deriving Repr, DecidableEq

/-- Values one polling iteration reads from the outside world. -/
structure PollObs : Type where
  /-- clock at the top of the iteration. -/
  now0 : ℚ
  /-- whether `proc.wait(sleep_time)` returned (process exited). -/
  exitedDuringWait : Bool
  /-- combined size of both log files; `none` models an `OSError`. -/
  size : Option Nat
  /-- clock when a size increase is recorded. -/
  tSize : ℚ
  /-- root CPU sample; `none` models an unreadable `/proc` entry. -/
  cpu : Option ℚ
  /-- clock when a CPU increase is recorded. -/
  tCpu : ℚ
  /-- process-tree CPU sample. -/
  cpuTree : Option ℚ
  /-- clock when a tree-CPU increase is recorded. -/
  tCpuTree : ℚ
  /-- full stdout content at the probe read. -/
  stdoutContent : String
  /-- clock when a probe-progress increase is recorded. -/
  tProbe : ℚ
  /-- clock used for the progress-emission throttle. -/
  tProbe2 : ℚ
  /-- clock taken before the heartbeat and stall checks. -/
  tAfter : ℚ
deriving Repr

/-- Result of one polling iteration. -/
inductive PollStep : Type where
  | timedOut (kind : LimitKind) (st : PollState) : PollStep
  | exited (st : PollState) : PollStep
  | next (st : PollState) : PollStep
deriving Repr

/-- The state carried by a `PollStep`. -/
def PollStep.state : PollStep → PollState
  | PollStep.timedOut _ st => st
  | PollStep.exited st => st
  | PollStep.next st => st

/-- The guard `x is not None and y is not None and x > y` of the two
CPU-activity checks. -/
def cpuSampleIncreased (sample old : Option ℚ) : Bool :=
  match sample, old with
  | some c, some l => decide (l < c)
  | _, _ => false

/-- The output-growth block of the loop body: a combined log-size
increase records activity (and output) at the size-check clock and the
new size. -/
def sizeStage (st0 : PollState) (o : PollObs) : PollState :=
  let current_size := o.size.getD st0.last_size
  if st0.last_size < current_size then
    { st0 with last_size := current_size,
               last_activity := o.tSize, last_output := o.tSize }
  else st0

/-- The root-CPU block: a strictly increased sample records activity;
any readable sample is stored. -/
def cpuStage (st1 : PollState) (o : PollObs) : PollState :=
  let stA :=
    if cpuSampleIncreased o.cpu st1.last_cpu then
      { st1 with last_activity := o.tCpu }
    else st1
  match o.cpu with
  | some c => { stA with last_cpu := some c }
  | none => stA

/-- The process-tree CPU block, same shape as the root-CPU block. -/
def treeStage (st2 : PollState) (o : PollObs) : PollState :=
  let stA :=
    if cpuSampleIncreased o.cpuTree st2.last_cpu_tree then
      { st2 with last_activity := o.tCpuTree }
    else st2
  match o.cpuTree with
  | some c => { stA with last_cpu_tree := some c }
  | none => stA

/-- The probe block: update the probe state from the current stdout
content; a progress-count increase records activity and may emit a
throttled progress message (only its throttle bookkeeping is state). -/
def probeStage (activity_probe : String) (st3 : PollState) (o : PollObs) :
    PollState :=
  let upd := updateProbeState activity_probe o.stdoutContent st3.probe_state
  let progress_count := upd.snd.fst
  let st4 := { st3 with probe_state := upd.fst }
  if st4.last_progress_count < progress_count then
    let stA := { st4 with last_activity := o.tProbe }
    let should_emit :=
      20 ≤ progress_count - stA.last_progress_count ∨
      (15 : ℚ) ≤ o.tProbe2 - stA.last_progress_emit
    let stB :=
      if should_emit then { stA with last_progress_emit := o.tProbe2 }
      else stA
    { stB with last_progress_count := progress_count }
  else st4

/-- The heartbeat block: when due, the printed snapshot is emitted and
the next heartbeat is rescheduled (only the rescheduling is state). -/
def heartbeatStage (st5 : PollState) (o : PollObs) : PollState :=
  match st5.next_heartbeat with
  | some hb =>
    if hb ≤ o.tAfter then
      let hbNext := o.tAfter + st5.heartbeat_secs.getD 0
      { st5 with next_heartbeat := some hbNext }
    else st5
  | none => st5

/-- The stall-timeout block: with a positive stall limit configured and
the time since last activity at or beyond it, terminate and record the
stall limit as the timeout value. -/
def stallCheck (st6 : PollState) (o : PollObs) : PollStep :=
  match st6.stall_timeout with
  | some s =>
    if 0 < s then
      if s ≤ o.tAfter - st6.last_activity then
        PollStep.timedOut LimitKind.stall { st6 with timeout_value := some s }
      else PollStep.next st6
    else PollStep.next st6
  | none => PollStep.next st6

/-- The part of one polling iteration after the wall-clock check: the
bounded wait, then the activity-sampling blocks in source order, the
heartbeat, and the stall check. -/
def pollBody (activity_probe : String) (st0 : PollState) (o : PollObs) :
    PollStep :=
  if o.exitedDuringWait then PollStep.exited st0
  else
    stallCheck
      (heartbeatStage
        (probeStage activity_probe
          (treeStage (cpuStage (sizeStage st0 o) o) o) o) o) o

/-- One full polling iteration: wall-clock deadline check first, then
the body. -/
def pollIter (activity_probe : String) (st0 : PollState) (o : PollObs) :
    PollStep :=
  match st0.deadline with
  | some d =>
    if d - o.now0 ≤ 0 then
      PollStep.timedOut LimitKind.wall { st0 with timeout_value := st0.timeout }
    else pollBody activity_probe st0 o
  | none => pollBody activity_probe st0 o

/-- The polling loop driven by a finite trace of observations; an empty
trace models `proc.poll()` reporting exit at the loop head.  Returns
the fired limit (if any) and the final state. -/
def pollLoop (activity_probe : String) :
    PollState → List PollObs → Option LimitKind × PollState
  | st, [] => (none, st)
  | st, o :: os =>
    match pollIter activity_probe st o with
    | PollStep.timedOut k st' => (some k, st')
    | PollStep.exited st' => (none, st')
    | PollStep.next st' => pollLoop activity_probe st' os

/-- The tail of `_execute` after the loop: read back the full log
contents and either raise `subprocess.TimeoutExpired` carrying them or
return `(stdout, stderr, returncode)`. -/
def finishExecute (cmd : String) (timed_out : Bool)
    (timeout_value : Option ℚ) (output stderr_output : String)
    (returncode : Int) : Except TimeoutExpired (String × String × Int) :=
  if timed_out then
    Except.error { cmd := cmd, timeout := timeout_value,
                   output := output, stderr := stderr_output }
  else Except.ok (output, stderr_output, returncode)

/-- `_execute` end to end: run the polling loop, read back the final
log contents, raise or return. -/
def executeModel (activity_probe cmd : String) (st : PollState)
    (obss : List PollObs) (finalStdout finalStderr : String)
    (returncode : Int) : Except TimeoutExpired (String × String × Int) :=
  let r := pollLoop activity_probe st obss
  finishExecute cmd r.fst.isSome r.snd.timeout_value
    finalStdout finalStderr returncode

/-! ## Supporting lemmas -/

/-- Python's substring test agrees with `List.IsInfix`. -/
theorem containsAux_eq_true_iff (n h : List Char) :
    containsAux n h = true ↔ n <:+: h := by
  induction h with
  | nil =>
    simp only [containsAux, List.isEmpty_iff, List.infix_nil]
  | cons c cs ih =>
    simp only [containsAux, Bool.or_eq_true, ih,
      List.isPrefixOf_iff_prefix, List.infix_cons_iff]

/-- Rate-limit detection modelled from the spec's words: scan "the
lowercased concatenation of stdout and stderr" (no separator) for the
fixed pattern set; used to compare the spec sentence with the source,
which joins the two streams with a newline. -/
def specRateLimitDetected (stdout stderr : String) : Bool :=
  let combined := pyLower (stdout ++ stderr)
  RATE_LIMIT_PATTERNS.any (fun pattern => pyContains combined pattern)

/-- C5 (counterexample): on stdout `"rate"` and stderr `"_limit"` the
spec's plain concatenation contains the pattern `rate_limit`, but the
code joins the streams with a newline and detects nothing. -/
theorem c5_counterexample :
    specRateLimitDetected "rate" "_limit" = true ∧
    isRateLimitError "rate" "_limit" = false := by
  decide

/-- C5 (amended): rate-limit detection returns true exactly when the
lowercased newline-joined combination `stdout + "\n" + stderr`
contains at least one of the fixed literal substrings. -/
theorem c5_rate_limit_characterization (stdout stderr : String) :
    isRateLimitError stdout stderr = true ↔
      ∃ p ∈ RATE_LIMIT_PATTERNS,
        p.data <:+: (pyLower (stdout ++ "\n" ++ stderr)).data := by
  simp only [isRateLimitError, List.any_eq_true, pyContains,
    containsAux_eq_true_iff]

/-! ## C9: concrete Format A round trip -/

/-- A Format A line: an `item.completed` event with a `reasoning` item. -/
def c9Line1 : String :=
  String.mk [lbrace] ++ "\"type\":\"item.completed\",\"item\":" ++
  String.mk [lbrace] ++ "\"type\":\"reasoning\"" ++
  String.mk [rbrace] ++ String.mk [rbrace]

/-- A Format A line: an `item.completed` event with an
`assistant_message` item carrying text `"hello"`. -/
def c9Line2 : String :=
  String.mk [lbrace] ++ "\"type\":\"item.completed\",\"item\":" ++
  String.mk [lbrace] ++ "\"type\":\"assistant_message\",\"text\":\"hello\"" ++
  String.mk [rbrace] ++ String.mk [rbrace]

/-- The raw Format A stdout of the C9 round trip. -/
def c9Raw : String := c9Line1 ++ "\n" ++ c9Line2 ++ "\n"

/-- C9: for Format A raw output holding exactly an `item.completed`
`reasoning` event followed by an `item.completed` `assistant_message`
event with text `"hello"`, extraction returns exactly `"hello"`, and a
probe scan of the same stream counts one progress event and one final
event. -/
theorem c9_format_a_round_trip :
    extractCodexFinalOutput c9Raw = "hello" ∧
    (updateProbeState "codex_json" c9Raw
        (initProbeState "codex_json")).fst.progress_count = 1 ∧
    (updateProbeState "codex_json" c9Raw
        (initProbeState "codex_json")).fst.final_count = 1 := by
  decide

/-! ## Fallback-logic lemmas (C1, C3) -/

/-- A configured generic fallback is structurally smaller. -/
theorem sizeOf_fallback_lt {name cmd probe : String}
    {fb rlf : Option Reviewer} {f : Reviewer} (h : fb = some f) :
    sizeOf f < sizeOf (Reviewer.mk name cmd probe fb rlf) := by
  subst h
  simp only [Reviewer.mk.sizeOf_spec, Option.some.sizeOf_spec]
  omega

/-- A configured rate-limit fallback is structurally smaller. -/
theorem sizeOf_rlf_lt {name cmd probe : String}
    {fb rlf : Option Reviewer} {f : Reviewer} (h : rlf = some f) :
    sizeOf f < sizeOf (Reviewer.mk name cmd probe fb rlf) := by
  subst h
  simp only [Reviewer.mk.sizeOf_spec, Option.some.sizeOf_spec]
  omega

/-- The timeout branch of `run`: recurse into the generic fallback or
re-raise. -/
def runOnTimeout (env : ExecEnv) (fb : Option Reviewer)
    (e : TimeoutExpired) : Except TimeoutExpired String :=
  match fb with
  | some f => Reviewer.run env f
  | none => Except.error e

/-- The completed branch of `run`: rate-limit check (preferring the
rate-limit fallback), then exit-code check, then extraction. -/
def runOnDone (env : ExecEnv) (probe : String) (fb rlf : Option Reviewer)
    (raw errs : String) (rc : Int) : Except TimeoutExpired String :=
  if isRateLimitError raw errs then
    match rlf, fb with
    | some f, _ => Reviewer.run env f
    | none, some f => Reviewer.run env f
    | none, none => Except.ok (extractReviewerOutput probe raw)
  else
    if rc ≠ 0 then
      match fb with
      | some f => Reviewer.run env f
      | none => Except.ok (extractReviewerOutput probe raw)
    else Except.ok (extractReviewerOutput probe raw)

/-- Unfolding of `run` when the execution raises a timeout. -/
theorem run_timeout_eq (env : ExecEnv) {name cmd probe : String}
    {fb rlf : Option Reviewer} {e : TimeoutExpired}
    (h : env (Reviewer.mk name cmd probe fb rlf) = ExecOutcome.timeout e) :
    Reviewer.run env (Reviewer.mk name cmd probe fb rlf) =
      runOnTimeout env fb e := by
  rw [Reviewer.run, h]
  rfl

/-- Unfolding of `run` when the execution completes. -/
theorem run_done_eq (env : ExecEnv) {name cmd probe : String}
    {fb rlf : Option Reviewer} {raw errs : String} {rc : Int}
    (h : env (Reviewer.mk name cmd probe fb rlf) =
      ExecOutcome.done raw errs rc) :
    Reviewer.run env (Reviewer.mk name cmd probe fb rlf) =
      runOnDone env probe fb rlf raw errs rc := by
  rw [Reviewer.run, h]
  rfl

/-- Every hard failure of `run` is the re-raise of a timeout raised by
some reviewer of the chain that has no generic fallback configured
(strong induction on the size of the fallback graph). -/
theorem run_error_is_unrecovered_timeout (env : ExecEnv) (n : Nat) :
    ∀ (r : Reviewer), sizeOf r < n → ∀ e,
      Reviewer.run env r = Except.error e →
      ∃ r', env r' = ExecOutcome.timeout e ∧ r'.fallback = none := by
  induction n with
  | zero => intro r hr; omega
  | succ n ih =>
    intro r hr e hrun
    cases r with
    | mk name cmd probe fb rlf =>
      cases henv : env (Reviewer.mk name cmd probe fb rlf) with
      | timeout ex =>
        rw [run_timeout_eq env henv] at hrun
        simp only [runOnTimeout] at hrun
        cases fb with
        | some f =>
          simp only at hrun
          have hlt := @sizeOf_fallback_lt name cmd probe (some f) rlf f rfl
          exact ih f (by omega) e hrun
        | none =>
          simp only [Except.error.injEq] at hrun
          subst hrun
          exact ⟨Reviewer.mk name cmd probe none rlf, henv, rfl⟩
      | done raw errs rc =>
        rw [run_done_eq env henv] at hrun
        simp only [runOnDone] at hrun
        by_cases hrl : isRateLimitError raw errs = true
        · rw [if_pos hrl] at hrun
          cases rlf with
          | some f =>
            have hlt := @sizeOf_rlf_lt name cmd probe fb (some f) f rfl
            exact ih f (by omega) e hrun
          | none =>
            cases fb with
            | some f =>
              have hlt := @sizeOf_fallback_lt name cmd probe (some f) none f rfl
              exact ih f (by omega) e hrun
            | none => simp at hrun
        · rw [if_neg hrl] at hrun
          by_cases hrc : rc ≠ 0
          · rw [if_pos hrc] at hrun
            cases fb with
            | some f =>
              have hlt := @sizeOf_fallback_lt name cmd probe (some f) rlf f rfl
              exact ih f (by omega) e hrun
            | none => simp at hrun
          · rw [if_neg hrc] at hrun
            simp at hrun

/-- When no reviewer execution times out, `run` always produces a text
result. -/
theorem run_ok_of_no_timeout (env : ExecEnv)
    (henv : ∀ r', (env r').isTimeout = false) (n : Nat) :
    ∀ (r : Reviewer), sizeOf r < n →
      ∃ s, Reviewer.run env r = Except.ok s := by
  induction n with
  | zero => intro r hr; omega
  | succ n ih =>
    intro r hr
    cases r with
    | mk name cmd probe fb rlf =>
      cases hout : env (Reviewer.mk name cmd probe fb rlf) with
      | timeout ex =>
        have := henv (Reviewer.mk name cmd probe fb rlf)
        rw [hout] at this
        simp [ExecOutcome.isTimeout] at this
      | done raw errs rc =>
        rw [run_done_eq env hout]
        simp only [runOnDone]
        by_cases hrl : isRateLimitError raw errs = true
        · rw [if_pos hrl]
          cases rlf with
          | some f =>
            have hlt := @sizeOf_rlf_lt name cmd probe fb (some f) f rfl
            exact ih f (by omega)
          | none =>
            cases fb with
            | some f =>
              have hlt := @sizeOf_fallback_lt name cmd probe (some f) none f rfl
              exact ih f (by omega)
            | none => exact ⟨_, rfl⟩
        · rw [if_neg hrl]
          by_cases hrc : rc ≠ 0
          · rw [if_pos hrc]
            cases fb with
            | some f =>
              have hlt := @sizeOf_fallback_lt name cmd probe (some f) rlf f rfl
              exact ih f (by omega)
            | none => exact ⟨_, rfl⟩
          · rw [if_neg hrc]
            exact ⟨_, rfl⟩

/-- A completed execution on a reviewer with neither fallback configured
always degrades to extraction of the captured output, whatever the exit
code and whether or not the output looks rate-limited. -/
theorem run_done_no_fallback (env : ExecEnv) (r : Reviewer)
    (out err : String) (rc : Int)
    (henv : env r = ExecOutcome.done out err rc)
    (hfb : r.fallback = none) (hrlf : r.rate_limit_fallback = none) :
    Reviewer.run env r =
      Except.ok (extractReviewerOutput r.activity_probe out) := by
  cases r with
  | mk name cmd probe fb rlf =>
    simp only [Reviewer.fallback] at hfb
    simp only [Reviewer.rate_limit_fallback] at hrlf
    subst hfb; subst hrlf
    rw [run_done_eq env henv]
    simp only [runOnDone]
    by_cases hrl : isRateLimitError out err = true
    · rw [if_pos hrl]
      rfl
    · rw [if_neg hrl]
      by_cases hrc : rc ≠ 0
      · rw [if_pos hrc]
        rfl
      · rw [if_neg hrc]
        rfl

/-- C1: `run` raises a hard failure exactly when the underlying failure
is a timeout with no applicable fallback: every raised failure is the
timeout failure of a chain reviewer with no generic fallback; when no
execution in the environment times out, `run` returns some text; and
for a completed execution with exit code 1 and no fallback configured,
`run` returns the extracted text rather than raising. -/
theorem c1_failure_only_unrecovered_timeout (env : ExecEnv) (r : Reviewer) :
    (∀ e, Reviewer.run env r = Except.error e →
       ∃ r', env r' = ExecOutcome.timeout e ∧ r'.fallback = none) ∧
    ((∀ r', (env r').isTimeout = false) →
       ∃ s, Reviewer.run env r = Except.ok s) ∧
    (∀ out err, env r = ExecOutcome.done out err 1 →
       r.fallback = none → r.rate_limit_fallback = none →
       Reviewer.run env r =
         Except.ok (extractReviewerOutput r.activity_probe out)) := by
  refine ⟨?_, ?_, ?_⟩
  · intro e hrun
    exact run_error_is_unrecovered_timeout env (sizeOf r + 1) r
      (by omega) e hrun
  · intro henv
    exact run_ok_of_no_timeout env henv (sizeOf r + 1) r (by omega)
  · intro out err henv hfb hrlf
    exact run_done_no_fallback env r out err 1 henv hfb hrlf

/-- The environment of the C1 witness: every execution completes with
raw output `"output"` and exit code 1. -/
def c1Env : ExecEnv := fun _ => ExecOutcome.done "output" "" 1

/-- The reviewer of the C1 witness: generic probe, no fallbacks. -/
def c1Reviewer : Reviewer := Reviewer.mk "a" "cmd" "generic" none none

/-- C1 (witness): a raw exit-code-1 run with no fallback configured
returns the extracted (here: raw) output instead of raising. -/
theorem c1_failure_only_unrecovered_timeout_witness :
    Reviewer.run c1Env c1Reviewer = Except.ok "output" :=
  (c1_failure_only_unrecovered_timeout c1Env c1Reviewer).2.2
    "output" "" rfl rfl rfl

/-- C3: when a rate limit is detected in a completed execution's
output, `run` prefers the rate-limit fallback over the generic
fallback and recurses into whichever exists; when neither exists it
continues to the non-zero-exit check with the original result, which
(both fallbacks being absent) degrades to extraction. -/
theorem c3_rate_limit_fallback_priority (env : ExecEnv) (r : Reviewer)
    (out err : String) (rc : Int)
    (henv : env r = ExecOutcome.done out err rc)
    (hrl : isRateLimitError out err = true) :
    (∀ f, r.rate_limit_fallback = some f →
       Reviewer.run env r = Reviewer.run env f) ∧
    (r.rate_limit_fallback = none → ∀ f, r.fallback = some f →
       Reviewer.run env r = Reviewer.run env f) ∧
    (r.rate_limit_fallback = none → r.fallback = none →
       Reviewer.run env r =
         Except.ok (extractReviewerOutput r.activity_probe out)) := by
  cases r with
  | mk name cmd probe fb rlf =>
    rw [run_done_eq env henv]
    simp only [runOnDone]
    rw [if_pos hrl]
    refine ⟨?_, ?_, ?_⟩
    · intro f hf
      simp only [Reviewer.rate_limit_fallback] at hf
      subst hf
      rfl
    · intro hrlf f hf
      simp only [Reviewer.rate_limit_fallback] at hrlf
      simp only [Reviewer.fallback] at hf
      subst hrlf
      subst hf
      rfl
    · intro hrlf hfb
      simp only [Reviewer.rate_limit_fallback] at hrlf
      simp only [Reviewer.fallback] at hfb
      subst hrlf
      subst hfb
      rfl

/-- Generic fallback of the C3 witness. -/
def c3Fb : Reviewer := Reviewer.mk "fb" "c" "generic" none none

/-- Rate-limit fallback of the C3 witness. -/
def c3Rlf : Reviewer := Reviewer.mk "rlf" "c" "generic" none none

/-- Primary reviewer of the C3 witness, with both fallbacks
configured. -/
def c3Primary : Reviewer :=
  Reviewer.mk "primary" "c" "generic" (some c3Fb) (some c3Rlf)

/-- Environment of the C3 witness: the primary's raw output matches
the case-insensitive substring check for `"Rate Limit Exceeded"`; the
two fallbacks complete cleanly with distinct outputs. -/
def c3Env : ExecEnv := fun r =>
  match r with
  | Reviewer.mk nm _ _ _ _ =>
    if nm = "primary" then ExecOutcome.done "Rate Limit Exceeded" "" 0
    else if nm = "rlf" then ExecOutcome.done "rlf output" "" 0
    else ExecOutcome.done "fb output" "" 0

/-- C3 (witness): on raw output `"Rate Limit Exceeded"` with both
fallbacks configured, `run` uses the rate-limit fallback, not the
generic one. -/
theorem c3_rate_limit_fallback_priority_witness :
    Reviewer.run c3Env c3Primary = Reviewer.run c3Env c3Rlf ∧
    Reviewer.run c3Env c3Primary = Except.ok "rlf output" := by
  have h := (c3_rate_limit_fallback_priority c3Env c3Primary
    "Rate Limit Exceeded" "" 0 rfl (by decide)).1 c3Rlf rfl
  exact ⟨h, by rw [h]; rfl⟩

/-! ## Probe-state invariants (C10, C8) -/

/-- `String.mk` is the inverse of `String.data`. -/
theorem data_mk (l : List Char) : (String.mk l).data = l := rfl

/-- The chunk read is everything past the recorded offset. -/
theorem readNewStdoutChunk_fst (content : String) (st : ProbeState) :
    (readNewStdoutChunk content st).fst =
      String.mk (content.data.drop st.offset) := rfl

/-- The state after a read only advances the offset. -/
theorem readNewStdoutChunk_snd (content : String) (st : ProbeState) :
    (readNewStdoutChunk content st).snd =
      { st with offset := max st.offset content.length } := rfl

/-- `probeReturn` returns the state unchanged. -/
theorem probeReturn_fst (st : ProbeState) : (probeReturn st).fst = st := rfl

/-- Classifying one line either leaves the state unchanged or bumps
exactly one counter and its last-label. -/
theorem classifyLine_cases (probe : String) (st : ProbeState)
    (line : String) :
    classifyLine probe st line = st ∨
    (∃ lab, classifyLine probe st line =
      { st with progress_count := st.progress_count + 1,
                last_progress := some lab }) ∨
    (∃ lab, classifyLine probe st line =
      { st with final_count := st.final_count + 1,
                last_final := some lab }) := by
  simp only [classifyLine]
  split
  · exact Or.inl rfl
  · split
    · exact Or.inl rfl
    · split
      · exact Or.inl rfl
      · exact Or.inr (Or.inl ⟨_, rfl⟩)
      · exact Or.inr (Or.inr ⟨_, rfl⟩)

/-- Classifying one line never decreases the counters and never touches
the offset or the held-back tail. -/
theorem classifyLine_mono (probe : String) (st : ProbeState)
    (line : String) :
    st.progress_count ≤ (classifyLine probe st line).progress_count ∧
    st.final_count ≤ (classifyLine probe st line).final_count ∧
    (classifyLine probe st line).offset = st.offset ∧
    (classifyLine probe st line).tail = st.tail := by
  rcases classifyLine_cases probe st line with h | ⟨lab, h⟩ | ⟨lab, h⟩ <;>
    rw [h] <;>
    exact ⟨by simp, by simp, rfl, rfl⟩

/-- Folding the classifier over any line list never decreases the
counters and never touches the offset. -/
theorem foldl_classifyLine_mono (probe : String) (lines : List String) :
    ∀ st : ProbeState,
      st.progress_count ≤
        (lines.foldl (classifyLine probe) st).progress_count ∧
      st.final_count ≤ (lines.foldl (classifyLine probe) st).final_count ∧
      (lines.foldl (classifyLine probe) st).offset = st.offset := by
  induction lines with
  | nil => intro st; exact ⟨Nat.le_refl _, Nat.le_refl _, rfl⟩
  | cons l ls ih =>
    intro st
    have h1 := classifyLine_mono probe st l
    have h2 := ih (classifyLine probe st l)
    exact ⟨Nat.le_trans h1.1 h2.1, Nat.le_trans h1.2.1 h2.2.1,
      h2.2.2.trans h1.2.2.1⟩

/-- Chunk classification never decreases the counters and never touches
the offset. -/
theorem processChunk_mono (probe : String) (st1 : ProbeState)
    (chunk : String) :
    st1.progress_count ≤ (processChunk probe st1 chunk).progress_count ∧
    st1.final_count ≤ (processChunk probe st1 chunk).final_count ∧
    (processChunk probe st1 chunk).offset = st1.offset := by
  simp only [processChunk]
  exact foldl_classifyLine_mono probe
    (splitPendingTail (splitlinesKeep (st1.tail ++ chunk))).snd
    { st1 with tail := (splitPendingTail (splitlinesKeep (st1.tail ++ chunk))).fst }

/-- C10: every probe update leaves `byte_offset`, `progress_count` and
`final_count` at or above their previous values, and an update that
reads no new bytes (the recorded offset already covers the whole file)
leaves the counters and both last-labels unchanged. -/
theorem c10_probe_update_monotone (probe content : String)
    (st : ProbeState) :
    (st.offset ≤ (updateProbeState probe content st).fst.offset ∧
     st.progress_count ≤
       (updateProbeState probe content st).fst.progress_count ∧
     st.final_count ≤ (updateProbeState probe content st).fst.final_count) ∧
    (content.length ≤ st.offset →
      (updateProbeState probe content st).fst.progress_count =
        st.progress_count ∧
      (updateProbeState probe content st).fst.final_count = st.final_count ∧
      (updateProbeState probe content st).fst.last_progress =
        st.last_progress ∧
      (updateProbeState probe content st).fst.last_final = st.last_final) := by
  unfold updateProbeState
  by_cases hg : probe = "generic"
  · rw [if_pos hg]
    exact ⟨⟨Nat.le_refl _, Nat.le_refl _, Nat.le_refl _⟩,
      fun _ => ⟨rfl, rfl, rfl, rfl⟩⟩
  · rw [if_neg hg]
    by_cases hc : (readNewStdoutChunk content st).fst.data.isEmpty = true
    · rw [if_pos hc, probeReturn_fst, readNewStdoutChunk_snd]
      exact ⟨⟨Nat.le_max_left _ _, Nat.le_refl _, Nat.le_refl _⟩,
        fun _ => ⟨rfl, rfl, rfl, rfl⟩⟩
    · rw [if_neg hc, probeReturn_fst, readNewStdoutChunk_snd,
        readNewStdoutChunk_fst]
      have hp := processChunk_mono probe
        { st with offset := max st.offset content.length }
        (String.mk (content.data.drop st.offset))
      refine ⟨⟨?_, hp.1, hp.2.1⟩, ?_⟩
      · rw [hp.2.2]
        exact Nat.le_max_left _ _
      · intro hlen
        exfalso
        apply hc
        rw [readNewStdoutChunk_fst, data_mk]
        have hdrop : content.data.drop st.offset = [] :=
          List.drop_eq_nil_of_le hlen
        rw [hdrop]
        rfl

/-- C10 (witness): a concrete update that reads no new bytes (offset
already at end of file) keeps offset, counters and labels. -/
theorem c10_probe_update_monotone_witness :
    ((3 : Nat) ≤ (updateProbeState "codex_json" "abc"
        { offset := 3, tail := "x", progress_count := 2, final_count := 1,
          last_progress := some "p",
          last_final := some "f" }).fst.offset) ∧
    (updateProbeState "codex_json" "abc"
        { offset := 3, tail := "x", progress_count := 2, final_count := 1,
          last_progress := some "p",
          last_final := some "f" }).fst.progress_count = 2 ∧
    (updateProbeState "codex_json" "abc"
        { offset := 3, tail := "x", progress_count := 2, final_count := 1,
          last_progress := some "p",
          last_final := some "f" }).fst.last_final = some "f" := by
  have h := c10_probe_update_monotone "codex_json" "abc"
    { offset := 3, tail := "x", progress_count := 2, final_count := 1,
      last_progress := some "p", last_final := some "f" }
  have h2 := h.2 (by decide)
  exact ⟨h.1.1, h2.1, h2.2.2.2⟩

/-! ## Final-output extraction as a last-match (C6, C7) -/

/-- Whether a parsed object is a Format A `item.completed` event whose
nested item type is `agent_message` or `assistant_message` (the events
the spec calls final messages). -/
def isCodexFinalMsg (j : Json) : Bool :=
  match j with
  | Json.obj fields =>
    match dictGet fields "type" with
    | some (Json.str t) =>
      if t = "item.completed" then
        match dictGet fields "item" with
        | some (Json.obj item) =>
          match dictGet item "type" with
          | some (Json.str item_type) =>
            item_type = "agent_message" || item_type = "assistant_message"
          | _ => false
        | _ => false
      else false
    | _ => false
  | _ => false

/-- The nested `item.text` string field of a Format A event, when
present. -/
def codexMsgText (j : Json) : Option String :=
  match j with
  | Json.obj fields =>
    match dictGet fields "item" with
    | some (Json.obj item) =>
      match dictGet item "text" with
      | some (Json.str s) => some s
      | _ => none
    | _ => none
  | _ => none

/-- The text one event contributes to the codex accumulator: its
nested text when it is a final-message event, nothing otherwise. -/
def codexSel (j : Json) : Option String :=
  if isCodexFinalMsg j = true then codexMsgText j else none

set_option maxHeartbeats 1000000 in
/-- One codex extraction step overrides the accumulator exactly with
the text of a final-message event. -/
theorem codexStep_eq (acc : Option String) (j : Json) :
    codexStep acc j =
      if isCodexFinalMsg j = true then (codexMsgText j).or acc else acc := by
  cases j <;> try rfl
  rename_i fields
  simp only [codexStep, isCodexFinalMsg, codexMsgText]
  repeat' split
  all_goals simp_all [Option.or]

/-- One codex extraction step, in selector form. -/
theorem codexStep_sel (acc : Option String) (j : Json) :
    codexStep acc j = (codexSel j).or acc := by
  rw [codexStep_eq]
  unfold codexSel
  split
  · rfl
  · rfl

/-- The codex extraction fold keeps the last selected text, seeded by
the accumulator. -/
theorem foldl_codexStep (l : List Json) (acc : Option String) :
    l.foldl codexStep acc = ((l.filterMap codexSel).getLast?).or acc := by
  induction l using List.reverseRecOn generalizing acc with
  | nil => rfl
  | append_singleton ls j ih =>
    rw [List.foldl_append, List.foldl_cons, List.foldl_nil, codexStep_sel,
      ih, List.filterMap_append]
    cases hsel : codexSel j
    · simp [hsel]
    · simp [hsel, List.getLast?_concat]

/-- When every selected event has a text (the well-formedness the raw
format guarantees), the last selected text is the text of the last
selected event. -/
theorem filterMap_if_getLast {α : Type} (p : α → Bool) (f : α → Option String)
    (l : List α) (hwf : ∀ j ∈ l, p j = true → (f j).isSome = true) :
    (l.filterMap (fun j => if p j = true then f j else none)).getLast? =
      match (l.filter (fun j => p j)).getLast? with
      | some j => f j
      | none => none := by
  induction l using List.reverseRecOn with
  | nil => rfl
  | append_singleton ls j ih =>
    have hwf' : ∀ x ∈ ls, p x = true → (f x).isSome = true :=
      fun x hx => hwf x (by simp [hx])
    rw [List.filterMap_append, List.filter_append]
    by_cases hp : p j = true
    · obtain ⟨s, hs⟩ := Option.isSome_iff_exists.mp (hwf j (by simp) hp)
      simp [hp, hs, List.getLast?_concat]
    · simp [hp, ih hwf']

/-- C6: for every Format A raw stdout whose final-message events carry
a text string, extraction returns the nested text field of the last
`item.completed` event with nested item type `agent_message` or
`assistant_message`, and the raw output verbatim when there is no such
event. -/
theorem c6_codex_extraction (raw : String)
    (hwf : ∀ j ∈ iterJsonLines raw, isCodexFinalMsg j = true →
      (codexMsgText j).isSome = true) :
    extractCodexFinalOutput raw =
      match ((iterJsonLines raw).filter
          (fun j => isCodexFinalMsg j)).getLast? with
      | some j => (codexMsgText j).getD raw
      | none => raw := by
  unfold extractCodexFinalOutput
  rw [foldl_codexStep]
  rw [show codexSel =
    (fun j => if isCodexFinalMsg j = true then codexMsgText j else none)
    from rfl]
  rw [filterMap_if_getLast isCodexFinalMsg codexMsgText
    (iterJsonLines raw) hwf]
  cases hlast : ((iterJsonLines raw).filter
      (fun j => isCodexFinalMsg j)).getLast? with
  | none => rfl
  | some j =>
    cases ht : codexMsgText j with
    | none => simp [ht, Option.or]
    | some s => simp [ht, Option.or]

/-- Raw Format A stdout of the C6 witness: two final-message events;
the later one carries text `"b"`. -/
def c6Raw : String :=
  String.mk [lbrace] ++ "\"type\":\"item.completed\",\"item\":" ++
  String.mk [lbrace] ++ "\"type\":\"agent_message\",\"text\":\"a\"" ++
  String.mk [rbrace] ++ String.mk [rbrace] ++ "\n" ++
  String.mk [lbrace] ++ "\"type\":\"item.completed\",\"item\":" ++
  String.mk [lbrace] ++ "\"type\":\"assistant_message\",\"text\":\"b\"" ++
  String.mk [rbrace] ++ String.mk [rbrace] ++ "\n"

/-- C6 (witness): with two final-message events, extraction returns
the text of the last one. -/
theorem c6_codex_extraction_witness : extractCodexFinalOutput c6Raw = "b" :=
  (c6_codex_extraction c6Raw (by decide)).trans (by decide)

/-- The last element of a list is a member. -/
theorem mem_of_getLast? {α : Type} {l : List α} {a : α}
    (h : l.getLast? = some a) : a ∈ l := by
  induction l with
  | nil => simp at h
  | cons x xs ih =>
    cases xs with
    | nil => simp_all
    | cons y ys =>
      rw [List.getLast?_cons_cons] at h
      exact List.mem_cons_of_mem _ (ih h)

/-- Whether a parsed object is a Format B `result`-type event. -/
def isClaudeResultEv (j : Json) : Bool :=
  match j with
  | Json.obj fields =>
    match dictGet fields "type" with
    | some (Json.str t) => t = "result"
    | _ => false
  | _ => false

/-- The `result` string field of a Format B event, when present. -/
def claudeResultField (j : Json) : Option String :=
  match j with
  | Json.obj fields =>
    match dictGet fields "result" with
    | some (Json.str v) => some v
    | _ => none
  | _ => none

/-- Whether a parsed object is a Format B `assistant`-type event. -/
def isClaudeAssistantEv (j : Json) : Bool :=
  match j with
  | Json.obj fields =>
    match dictGet fields "type" with
    | some (Json.str t) => t = "assistant"
    | _ => false
  | _ => false

/-- The concatenated text blocks of a Format B assistant event's
message, when any exist. -/
def claudeAssistantText (j : Json) : Option String :=
  match j with
  | Json.obj fields => extractClaudeMessageText (dictGet fields "message")
  | _ => none

/-- What one event contributes to the `result_text` accumulator. -/
def claudeResSel (j : Json) : Option String :=
  if isClaudeResultEv j = true then claudeResultField j else none

/-- What one event contributes to the `assistant_text` accumulator. -/
def claudeAstSel (j : Json) : Option String :=
  if isClaudeAssistantEv j = true then claudeAssistantText j else none

set_option maxHeartbeats 1000000 in
/-- One claude extraction step overrides each accumulator exactly with
the corresponding event contribution. -/
theorem claudeStep_eq (acc : Option String × Option String) (j : Json) :
    claudeStep acc j =
      ((claudeResSel j).or acc.fst, (claudeAstSel j).or acc.snd) := by
  cases j <;> try rfl
  rename_i fields
  simp only [claudeStep, claudeResSel, claudeAstSel, isClaudeResultEv,
    isClaudeAssistantEv, claudeResultField, claudeAssistantText]
  repeat' split
  all_goals simp_all [Option.or]

/-- The claude extraction fold keeps the last contribution of each
kind, seeded by the accumulators. -/
theorem foldl_claudeStep (l : List Json) (acc : Option String × Option String) :
    l.foldl claudeStep acc =
      (((l.filterMap claudeResSel).getLast?).or acc.fst,
       ((l.filterMap claudeAstSel).getLast?).or acc.snd) := by
  induction l using List.reverseRecOn generalizing acc with
  | nil => rfl
  | append_singleton ls j ih =>
    rw [List.foldl_append, List.foldl_cons, List.foldl_nil, claudeStep_eq,
      ih, List.filterMap_append, List.filterMap_append]
    cases hr : claudeResSel j <;> cases ha : claudeAstSel j <;>
      simp [hr, ha, List.getLast?_concat, Option.or_assoc]

/-- C7: for every Format B raw stdout whose `result` events carry a
string result and whose `assistant` events carry text blocks,
extraction returns the `result` field of the last `result`-type event;
failing that, the concatenated text of the last `assistant`-type
event's message; failing that, the raw output verbatim. -/
theorem c7_claude_extraction (raw : String)
    (hres : ∀ j ∈ iterJsonLines raw, isClaudeResultEv j = true →
      (claudeResultField j).isSome = true)
    (hast : ∀ j ∈ iterJsonLines raw, isClaudeAssistantEv j = true →
      (claudeAssistantText j).isSome = true) :
    extractClaudeFinalOutput raw =
      match ((iterJsonLines raw).filter
          (fun j => isClaudeResultEv j)).getLast? with
      | some j => (claudeResultField j).getD raw
      | none =>
        match ((iterJsonLines raw).filter
            (fun j => isClaudeAssistantEv j)).getLast? with
        | some j => (claudeAssistantText j).getD raw
        | none => raw := by
  unfold extractClaudeFinalOutput
  rw [foldl_claudeStep]
  rw [show claudeResSel =
    (fun j => if isClaudeResultEv j = true then claudeResultField j else none)
    from rfl]
  rw [show claudeAstSel =
    (fun j => if isClaudeAssistantEv j = true then claudeAssistantText j
              else none)
    from rfl]
  rw [filterMap_if_getLast isClaudeResultEv claudeResultField
    (iterJsonLines raw) hres]
  rw [filterMap_if_getLast isClaudeAssistantEv claudeAssistantText
    (iterJsonLines raw) hast]
  cases hr : ((iterJsonLines raw).filter
      (fun j => isClaudeResultEv j)).getLast? with
  | some j =>
    cases ht : claudeResultField j with
    | none =>
      have hj := List.mem_filter.mp (mem_of_getLast? hr)
      have hsome := hres j hj.1 hj.2
      rw [ht] at hsome
      simp at hsome
    | some s => simp [ht, Option.or]
  | none =>
    cases ha : ((iterJsonLines raw).filter
        (fun j => isClaudeAssistantEv j)).getLast? with
    | none => rfl
    | some j =>
      cases ht : claudeAssistantText j with
      | none =>
        have hj := List.mem_filter.mp (mem_of_getLast? ha)
        have hsome := hast j hj.1 hj.2
        rw [ht] at hsome
        simp at hsome
      | some s => simp [ht, Option.or]

/-- Raw Format B stdout of the C7 witness: an assistant event with two
text blocks followed by a result event. -/
def c7Raw : String :=
  String.mk [lbrace] ++ "\"type\":\"assistant\",\"message\":" ++
  String.mk [lbrace] ++ "\"content\":[" ++
  String.mk [lbrace] ++ "\"type\":\"text\",\"text\":\"he\"" ++
  String.mk [rbrace] ++ "," ++
  String.mk [lbrace] ++ "\"type\":\"text\",\"text\":\"llo\"" ++
  String.mk [rbrace] ++ "]" ++ String.mk [rbrace] ++ String.mk [rbrace] ++
  "\n" ++
  String.mk [lbrace] ++ "\"type\":\"result\",\"result\":\"done\"" ++
  String.mk [rbrace] ++ "\n"

/-- C7 (witness): the result event's string wins over the assistant
text. -/
theorem c7_claude_extraction_witness :
    extractClaudeFinalOutput c7Raw = "done" :=
  (c7_claude_extraction c7Raw (by decide) (by decide)).trans (by decide)

/-! ## Chunk-boundary reconstruction (C8) -/

/-- A terminator-free character list forms a single unterminated line. -/
theorem splitlinesKeepAux_noNl (l : List Char)
    (hl : ∀ c ∈ l, ¬(c = '\n' ∨ c = '\r')) :
    ∀ acc, splitlinesKeepAux l acc =
      if (acc.reverse ++ l).isEmpty then []
      else [String.mk (acc.reverse ++ l)] := by
  induction l with
  | nil =>
    intro acc
    rw [splitlinesKeepAux.eq_def]
    simp [List.isEmpty_iff]
  | cons c cs ih =>
    intro acc
    have hc := hl c (List.mem_cons_self c cs)
    have hcs : ∀ x ∈ cs, ¬(x = '\n' ∨ x = '\r') :=
      fun x hx => hl x (List.mem_cons_of_mem _ hx)
    rw [splitlinesKeepAux.eq_def]
    split
    · simp_all
    · simp_all
    · simp_all
    · simp_all
    · rename_i heq
      injection heq with h1 h2
      subst h1; subst h2
      rw [ih hcs]
      simp [List.isEmpty_iff, List.reverse_cons, List.append_assoc]

/-- A terminator-free list followed by a newline forms one complete line. -/
theorem splitlinesKeepAux_line (l : List Char)
    (hl : ∀ c ∈ l, ¬(c = '\n' ∨ c = '\r')) :
    ∀ acc, splitlinesKeepAux (l ++ ['\n']) acc =
      [String.mk (acc.reverse ++ l ++ ['\n'])] := by
  induction l with
  | nil =>
    intro acc
    rw [splitlinesKeepAux.eq_def]
    simp [splitlinesKeepAux]
  | cons c cs ih =>
    intro acc
    have hc := hl c (List.mem_cons_self c cs)
    have hcs : ∀ x ∈ cs, ¬(x = '\n' ∨ x = '\r') :=
      fun x hx => hl x (List.mem_cons_of_mem _ hx)
    rw [List.cons_append, splitlinesKeepAux.eq_def]
    split
    · simp_all
    · simp_all
    · simp_all
    · simp_all
    · rename_i heq
      injection heq with h1 h2
      subst h1; subst h2
      rw [ih hcs]
      simp [List.reverse_cons, List.append_assoc]


/-- `String.data` is the inverse of `String.mk`. -/
theorem mk_data (s : String) : String.mk s.data = s := rfl

/-- A terminator-free nonempty string splits into itself alone. -/
theorem splitlinesKeep_noNl (s : String)
    (h : ∀ c ∈ s.data, ¬(c = '\n' ∨ c = '\r')) (hne : s.data ≠ []) :
    splitlinesKeep s = [s] := by
  unfold splitlinesKeep
  rw [splitlinesKeepAux_noNl s.data h []]
  simp [List.isEmpty_iff, hne, mk_data]

/-- A terminator-free string does not end with a line terminator. -/
theorem endsWithNl_noNl (s : String)
    (h : ∀ c ∈ s.data, ¬(c = '\n' ∨ c = '\r')) :
    endsWithNl s = false := by
  unfold endsWithNl
  cases hg : s.data.getLast? with
  | none => rfl
  | some c =>
    obtain ⟨h1, h2⟩ := not_or.mp (h c (mem_of_getLast? hg))
    simp [h1, h2]

/-- A string ending in a newline ends with a line terminator. -/
theorem endsWithNl_concat (l : List Char) :
    endsWithNl (String.mk (l ++ ['\n'])) = true := by
  unfold endsWithNl
  rw [data_mk, List.getLast?_concat]
  rfl

/-- Right-stripping swallows a trailing newline. -/
theorem stripR_concat_nl (l : List Char) : stripR (l ++ ['\n']) = stripR l := by
  unfold stripR
  rw [List.reverse_append]
  have hws : isPyWs '\n' = true := rfl
  simp [List.dropWhile_cons, hws]

/-- Stripping swallows a trailing newline. -/
theorem pyStrip_concat_nl (l : List Char) :
    pyStrip (String.mk (l ++ ['\n'])) = pyStrip (String.mk l) := by
  unfold pyStrip
  rw [data_mk, data_mk, stripR_concat_nl]

/-- A read whose recorded offset covers exactly the old content returns
only the newly appended bytes. -/
theorem readNewStdoutChunk_from_offset (a b : String) (st : ProbeState)
    (h : st.offset = a.length) :
    (readNewStdoutChunk (a ++ b) st).fst = b := by
  rw [readNewStdoutChunk_fst, h]
  rw [show (a ++ b).data = a.data ++ b.data from rfl]
  rw [show a.length = a.data.length from rfl]
  rw [List.drop_left]

/-- A terminator-free chunk arriving on an empty tail is held back
whole as the pending tail; nothing is classified. -/
theorem processChunk_unterminated (probe : String) (st1 : ProbeState)
    (chunk : String) (htail : st1.tail = "")
    (hnl : ∀ c ∈ chunk.data, ¬(c = '\n' ∨ c = '\r'))
    (hne : chunk.data ≠ []) :
    processChunk probe st1 chunk = { st1 with tail := chunk } := by
  simp only [processChunk]
  rw [show st1.tail ++ chunk = chunk by rw [htail]; rfl]
  rw [splitlinesKeep_noNl chunk hnl hne]
  simp [splitPendingTail, endsWithNl_noNl chunk hnl]

/-- When the held-back tail plus the new chunk form one complete line,
exactly that line is classified and the tail empties. -/
theorem processChunk_complete_line (probe : String) (st1 : ProbeState)
    (L : String) (chunk : String)
    (hcat : st1.tail ++ chunk = String.mk (L.data ++ ['\n']))
    (hnl : ∀ c ∈ L.data, ¬(c = '\n' ∨ c = '\r')) :
    processChunk probe st1 chunk =
      classifyLine probe { st1 with tail := "" }
        (String.mk (L.data ++ ['\n'])) := by
  simp only [processChunk]
  rw [hcat]
  simp only [splitlinesKeep, data_mk]
  rw [splitlinesKeepAux_line L.data hnl]
  simp [splitPendingTail, endsWithNl_concat]

/-- A line that strips to a parsed, classified JSON object bumps the
matching counter and label exactly once. -/
theorem classifyLine_bumps (probe : String) (st : ProbeState) (L : String)
    (obj : Json) (kind : ProbeEventKind) (lab : String)
    (hstart : pyStartsWith (pyStrip L) (String.mk [lbrace]) = true)
    (hparse : jsonLoads (pyStrip L) = some obj)
    (hev : extractProbeEvent probe obj = some (kind, lab)) :
    (kind = ProbeEventKind.progress →
      classifyLine probe st (String.mk (L.data ++ ['\n'])) =
        { st with progress_count := st.progress_count + 1,
                  last_progress := some lab }) ∧
    (kind = ProbeEventKind.final →
      classifyLine probe st (String.mk (L.data ++ ['\n'])) =
        { st with final_count := st.final_count + 1,
                  last_final := some lab }) := by
  have hstrip : pyStrip (String.mk (L.data ++ ['\n'])) = pyStrip L := by
    rw [pyStrip_concat_nl, mk_data]
  simp only [classifyLine, hstrip, hstart, hparse, hev]
  constructor
  · intro hk; subst hk; rfl
  · intro hk; subst hk; rfl


/-- String concatenation is associative. -/
theorem string_append_assoc (a b c : String) : a ++ b ++ c = a ++ (b ++ c) := by
  show String.mk ((a.data ++ b.data) ++ c.data) =
    String.mk (a.data ++ (b.data ++ c.data))
  rw [List.append_assoc]

/-- A fresh probe fed a single unterminated fragment records its length
as the offset, holds the fragment back, and classifies nothing. -/
theorem updateProbeState_fresh_unterminated (probe a : String)
    (hg : ¬ probe = "generic")
    (hnl : ∀ c ∈ a.data, ¬(c = '\n' ∨ c = '\r')) (hne : a.data ≠ []) :
    (updateProbeState probe a (initProbeState probe)).fst =
      { offset := a.length, tail := a, progress_count := 0,
        final_count := 0, last_progress := none, last_final := none } := by
  unfold updateProbeState
  rw [if_neg hg]
  have hch : (readNewStdoutChunk a (initProbeState probe)).fst = a := rfl
  rw [hch, if_neg (by simpa [List.isEmpty_iff] using hne), probeReturn_fst,
    readNewStdoutChunk_snd]
  rw [processChunk_unterminated probe _ a rfl hnl hne]
  simp [initProbeState, Nat.zero_max]

/-- C8: a structured probe reads only the bytes appended since its
recorded offset, holds back an unterminated trailing fragment as the
pending tail, and a JSON-object line split at a chunk boundary across
two reads is reconstructed and classified exactly once, after the
second chunk completes the line. -/
theorem c8_probe_chunk_boundary (probe a b : String) (obj : Json)
    (kind : ProbeEventKind) (lab : String)
    (hprobe : probe = "codex_json" ∨ probe = "claude_stream_json")
    (hne : a.data ≠ [])
    (hnl : ∀ c ∈ a.data ++ b.data, ¬(c = '\n' ∨ c = '\r'))
    (hstart : pyStartsWith (pyStrip (a ++ b)) (String.mk [lbrace]) = true)
    (hparse : jsonLoads (pyStrip (a ++ b)) = some obj)
    (hev : extractProbeEvent probe obj = some (kind, lab)) :
    (updateProbeState probe a (initProbeState probe)).fst.tail = a ∧
    (updateProbeState probe a (initProbeState probe)).fst.offset = a.length ∧
    (updateProbeState probe a (initProbeState probe)).fst.progress_count
      = 0 ∧
    (updateProbeState probe a (initProbeState probe)).fst.final_count = 0 ∧
    (readNewStdoutChunk (a ++ b ++ "\n")
        (updateProbeState probe a (initProbeState probe)).fst).fst =
      b ++ "\n" ∧
    (updateProbeState probe (a ++ b ++ "\n")
        (updateProbeState probe a (initProbeState probe)).fst).fst.tail
      = "" ∧
    (kind = ProbeEventKind.progress →
      (updateProbeState probe (a ++ b ++ "\n")
          (updateProbeState probe a
            (initProbeState probe)).fst).fst.progress_count = 1 ∧
      (updateProbeState probe (a ++ b ++ "\n")
          (updateProbeState probe a
            (initProbeState probe)).fst).fst.final_count = 0 ∧
      (updateProbeState probe (a ++ b ++ "\n")
          (updateProbeState probe a
            (initProbeState probe)).fst).fst.last_progress = some lab) ∧
    (kind = ProbeEventKind.final →
      (updateProbeState probe (a ++ b ++ "\n")
          (updateProbeState probe a
            (initProbeState probe)).fst).fst.final_count = 1 ∧
      (updateProbeState probe (a ++ b ++ "\n")
          (updateProbeState probe a
            (initProbeState probe)).fst).fst.progress_count = 0 ∧
      (updateProbeState probe (a ++ b ++ "\n")
          (updateProbeState probe a
            (initProbeState probe)).fst).fst.last_final = some lab) := by
  have hg : ¬ probe = "generic" := by
    rcases hprobe with h | h <;> subst h <;> decide
  have hnlA : ∀ c ∈ a.data, ¬(c = '\n' ∨ c = '\r') :=
    fun c hc => hnl c (List.mem_append_left _ hc)
  have hnlL : ∀ c ∈ (a ++ b).data, ¬(c = '\n' ∨ c = '\r') := hnl
  have h1 := updateProbeState_fresh_unterminated probe a hg hnlA hne
  rw [h1]
  set R1 : ProbeState :=
    { offset := a.length, tail := a, progress_count := 0,
      final_count := 0, last_progress := none, last_final := none }
    with hR1
  have hchunk : (readNewStdoutChunk (a ++ b ++ "\n") R1).fst = b ++ "\n" := by
    rw [string_append_assoc]
    exact readNewStdoutChunk_from_offset a (b ++ "\n") R1 rfl
  have hne2 : (readNewStdoutChunk (a ++ b ++ "\n") R1).fst.data ≠ [] := by
    rw [hchunk]
    simp [show (b ++ "\n").data = b.data ++ ['\n'] from rfl]
  have h2 : (updateProbeState probe (a ++ b ++ "\n") R1).fst =
      classifyLine probe
        { R1 with offset := max R1.offset (a ++ b ++ "\n").length,
                  tail := "" }
        (String.mk ((a ++ b).data ++ ['\n'])) := by
    unfold updateProbeState
    rw [if_neg hg, if_neg (by simpa [List.isEmpty_iff] using hne2),
      probeReturn_fst, readNewStdoutChunk_snd, hchunk]
    refine processChunk_complete_line probe _ (a ++ b) (b ++ "\n") ?_ hnlL
    show a ++ (b ++ "\n") = String.mk ((a ++ b).data ++ ['\n'])
    show String.mk (a.data ++ (b.data ++ ['\n'])) =
      String.mk ((a.data ++ b.data) ++ ['\n'])
    rw [List.append_assoc]
  have hbump := classifyLine_bumps probe
    { R1 with offset := max R1.offset (a ++ b ++ "\n").length, tail := "" }
    (a ++ b) obj kind lab hstart hparse hev
  refine ⟨rfl, rfl, rfl, rfl, hchunk, ?_, ?_, ?_⟩
  · rw [h2]
    exact (classifyLine_mono probe _ _).2.2.2
  · intro hk
    rw [h2, hbump.1 hk]
    exact ⟨rfl, rfl, rfl⟩
  · intro hk
    rw [h2, hbump.2 hk]
    exact ⟨rfl, rfl, rfl⟩



/-- First chunk of the C8 witness: an opening brace and part of a JSON
object, no terminator. -/
def c8A : String := String.mk [lbrace] ++ "\"type\":\"turn."

/-- Second chunk of the C8 witness: the rest of the object. -/
def c8B : String := "started\"" ++ String.mk [rbrace]

/-- The object the two chunks form once joined. -/
def c8Obj : Json := Json.obj [("type", Json.str "turn.started")]

/-- C8 (witness): a JSON line split mid-object across two reads is
classified exactly once, after the second chunk completes the line. -/
theorem c8_probe_chunk_boundary_witness :
    (updateProbeState "codex_json" (c8A ++ c8B ++ "\n")
        (updateProbeState "codex_json" c8A
          (initProbeState "codex_json")).fst).fst.progress_count = 1 ∧
    (updateProbeState "codex_json" c8A
        (initProbeState "codex_json")).fst.progress_count = 0 := by
  have h := c8_probe_chunk_boundary "codex_json" c8A c8B c8Obj
    ProbeEventKind.progress "turn.started" (Or.inl rfl) (by decide)
    (by decide) (by decide) rfl rfl
  exact ⟨(h.2.2.2.2.2.2.1 rfl).1, h.2.2.1⟩

/-! ## Polling-loop liveness and termination (C2, C4) -/

/-- The output-growth block resets the activity clock exactly on a
size increase. -/
theorem sizeStage_la (st : PollState) (o : PollObs) :
    (sizeStage st o).last_activity =
      if st.last_size < o.size.getD st.last_size then o.tSize
      else st.last_activity := by
  simp only [sizeStage]
  split <;> rfl

/-- The output-growth block leaves the other liveness inputs and the
configured limits untouched. -/
theorem sizeStage_fields (st : PollState) (o : PollObs) :
    (sizeStage st o).last_cpu = st.last_cpu ∧
    (sizeStage st o).last_cpu_tree = st.last_cpu_tree ∧
    (sizeStage st o).probe_state = st.probe_state ∧
    (sizeStage st o).last_progress_count = st.last_progress_count ∧
    (sizeStage st o).stall_timeout = st.stall_timeout := by
  simp only [sizeStage]
  split <;> exact ⟨rfl, rfl, rfl, rfl, rfl⟩

/-- The root-CPU block resets the activity clock exactly on a strict
sample increase. -/
theorem cpuStage_la (st : PollState) (o : PollObs) :
    (cpuStage st o).last_activity =
      if cpuSampleIncreased o.cpu st.last_cpu = true then o.tCpu
      else st.last_activity := by
  by_cases h : cpuSampleIncreased o.cpu st.last_cpu = true <;>
    rcases hc : o.cpu with _ | c <;>
    rw [hc] at h <;>
    simp only [cpuStage, hc] <;>
    simp [h]

/-- The root-CPU block leaves the later liveness inputs and the
configured limits untouched. -/
theorem cpuStage_fields (st : PollState) (o : PollObs) :
    (cpuStage st o).last_cpu_tree = st.last_cpu_tree ∧
    (cpuStage st o).probe_state = st.probe_state ∧
    (cpuStage st o).last_progress_count = st.last_progress_count ∧
    (cpuStage st o).stall_timeout = st.stall_timeout := by
  by_cases h : cpuSampleIncreased o.cpu st.last_cpu = true <;>
    rcases hc : o.cpu with _ | c <;>
    rw [hc] at h <;>
    simp only [cpuStage, hc] <;>
    simp [h]

/-- The tree-CPU block resets the activity clock exactly on a strict
sample increase. -/
theorem treeStage_la (st : PollState) (o : PollObs) :
    (treeStage st o).last_activity =
      if cpuSampleIncreased o.cpuTree st.last_cpu_tree = true then o.tCpuTree
      else st.last_activity := by
  by_cases h : cpuSampleIncreased o.cpuTree st.last_cpu_tree = true <;>
    rcases hc : o.cpuTree with _ | c <;>
    rw [hc] at h <;>
    simp only [treeStage, hc] <;>
    simp [h]

/-- The tree-CPU block leaves the probe inputs and the configured
limits untouched. -/
theorem treeStage_fields (st : PollState) (o : PollObs) :
    (treeStage st o).probe_state = st.probe_state ∧
    (treeStage st o).last_progress_count = st.last_progress_count ∧
    (treeStage st o).stall_timeout = st.stall_timeout := by
  by_cases h : cpuSampleIncreased o.cpuTree st.last_cpu_tree = true <;>
    rcases hc : o.cpuTree with _ | c <;>
    rw [hc] at h <;>
    simp only [treeStage, hc] <;>
    simp [h]

/-- The probe block resets the activity clock exactly on a progress
increase. -/
theorem probeStage_la (probe : String) (st : PollState) (o : PollObs) :
    (probeStage probe st o).last_activity =
      if st.last_progress_count <
          (updateProbeState probe o.stdoutContent st.probe_state).snd.fst
        then o.tProbe else st.last_activity := by
  simp only [probeStage]
  split
  · split <;> rfl
  · rfl

/-- The probe block never touches the stall limit. -/
theorem probeStage_stall (probe : String) (st : PollState) (o : PollObs) :
    (probeStage probe st o).stall_timeout = st.stall_timeout := by
  simp only [probeStage]
  split
  · split <;> rfl
  · rfl

/-- The heartbeat block never touches the activity clock. -/
theorem heartbeatStage_la (st : PollState) (o : PollObs) :
    (heartbeatStage st o).last_activity = st.last_activity := by
  simp only [heartbeatStage]
  split
  · split <;> rfl
  · rfl

/-- The heartbeat block never touches the stall limit. -/
theorem heartbeatStage_stall (st : PollState) (o : PollObs) :
    (heartbeatStage st o).stall_timeout = st.stall_timeout := by
  simp only [heartbeatStage]
  split
  · split <;> rfl
  · rfl

/-- The stall check never touches the activity clock. -/
theorem stallCheck_state_la (st : PollState) (o : PollObs) :
    (stallCheck st o).state.last_activity = st.last_activity := by
  simp only [stallCheck]
  split
  · split
    · split <;> rfl
    · rfl
  · rfl

/-- With a positive stall limit and the activity clock far enough in
the past, the stall check terminates the iteration and records the
stall limit. -/
theorem stallCheck_fires (st : PollState) (o : PollObs) (s : ℚ)
    (hs : st.stall_timeout = some s) (hpos : 0 < s)
    (hfar : s ≤ o.tAfter - st.last_activity) :
    stallCheck st o =
      PollStep.timedOut LimitKind.stall
        { st with timeout_value := some s } := by
  simp only [stallCheck, hs]
  rw [if_pos hpos, if_pos hfar]


set_option maxHeartbeats 1000000 in
/-- C2: within one polling iteration (process still running, wall
deadline not reached), an increase in output size, root CPU, tree CPU
or probe progress resets the last-activity timestamp to the
corresponding sampling clock — the stall clock is the union of the
four signals, and with none of them the timestamp is untouched; and
with no signal, a positive configured stall timeout that has elapsed
since the last activity terminates the process as a stall even though
the wall deadline lies ahead. -/
theorem c2_stall_clock_union (probe : String) (st : PollState) (o : PollObs)
    (hexit : o.exitedDuringWait = false)
    (hwall : ∀ d, st.deadline = some d → o.now0 < d)
    (horder : o.tSize ≤ o.tCpu ∧ o.tCpu ≤ o.tCpuTree ∧
      o.tCpuTree ≤ o.tProbe) :
    ((st.last_size < o.size.getD st.last_size →
        o.tSize ≤ (pollIter probe st o).state.last_activity) ∧
     (cpuSampleIncreased o.cpu st.last_cpu = true →
        o.tCpu ≤ (pollIter probe st o).state.last_activity) ∧
     (cpuSampleIncreased o.cpuTree st.last_cpu_tree = true →
        o.tCpuTree ≤ (pollIter probe st o).state.last_activity) ∧
     (st.last_progress_count <
        (updateProbeState probe o.stdoutContent st.probe_state).snd.fst →
        (pollIter probe st o).state.last_activity = o.tProbe) ∧
     (¬ st.last_size < o.size.getD st.last_size →
        cpuSampleIncreased o.cpu st.last_cpu = false →
        cpuSampleIncreased o.cpuTree st.last_cpu_tree = false →
        ¬ st.last_progress_count <
          (updateProbeState probe o.stdoutContent st.probe_state).snd.fst →
        (pollIter probe st o).state.last_activity = st.last_activity)) ∧
    (∀ s : ℚ, st.stall_timeout = some s → 0 < s →
       ¬ st.last_size < o.size.getD st.last_size →
       cpuSampleIncreased o.cpu st.last_cpu = false →
       cpuSampleIncreased o.cpuTree st.last_cpu_tree = false →
       ¬ st.last_progress_count <
         (updateProbeState probe o.stdoutContent st.probe_state).snd.fst →
       s ≤ o.tAfter - st.last_activity →
       ∃ st', pollIter probe st o = PollStep.timedOut LimitKind.stall st' ∧
         st'.timeout_value = some s) := by
  have hpoll : pollIter probe st o = pollBody probe st o := by
    cases hd : st.deadline with
    | none =>
      unfold pollIter
      rw [hd]
    | some d =>
      have hn : ¬ (d - o.now0 ≤ 0) := by
        have := hwall d hd
        intro hle
        linarith
      unfold pollIter
      rw [hd]
      simp [hn]
  have hbody : pollBody probe st o =
      stallCheck (heartbeatStage (probeStage probe
        (treeStage (cpuStage (sizeStage st o) o) o) o) o) o := by
    simp [pollBody, hexit]
  have f1 := sizeStage_fields st o
  have f2 := cpuStage_fields (sizeStage st o) o
  have f3 := treeStage_fields (cpuStage (sizeStage st o) o) o
  have la1 := sizeStage_la st o
  have la2 := cpuStage_la (sizeStage st o) o
  have la3 := treeStage_la (cpuStage (sizeStage st o) o) o
  have la4 := probeStage_la probe (treeStage (cpuStage (sizeStage st o) o) o) o
  have la5 := heartbeatStage_la (probeStage probe
    (treeStage (cpuStage (sizeStage st o) o) o) o) o
  have la6 := stallCheck_state_la (heartbeatStage (probeStage probe
    (treeStage (cpuStage (sizeStage st o) o) o) o) o) o
  rw [f1.1] at la2
  rw [f2.1, f1.2.1] at la3
  rw [f3.1, f2.2.1, f1.2.2.1, f3.2.1, f2.2.2.1, f1.2.2.2.1] at la4
  have hfinal : (pollIter probe st o).state.last_activity =
      (probeStage probe (treeStage (cpuStage (sizeStage st o) o) o) o).last_activity := by
    rw [hpoll, hbody, la6, la5]
  have hchar : (pollIter probe st o).state.last_activity =
      if st.last_progress_count <
          (updateProbeState probe o.stdoutContent st.probe_state).snd.fst
        then o.tProbe
      else if cpuSampleIncreased o.cpuTree st.last_cpu_tree = true
        then o.tCpuTree
      else if cpuSampleIncreased o.cpu st.last_cpu = true then o.tCpu
      else if st.last_size < o.size.getD st.last_size then o.tSize
      else st.last_activity := by
    rw [hfinal, la4]
    by_cases c4 : st.last_progress_count <
        (updateProbeState probe o.stdoutContent st.probe_state).snd.fst
    · rw [if_pos c4, if_pos c4]
    · rw [if_neg c4, if_neg c4, la3]
      by_cases c3 : cpuSampleIncreased o.cpuTree st.last_cpu_tree = true
      · rw [if_pos c3, if_pos c3]
      · rw [if_neg c3, if_neg c3, la2]
        by_cases c2 : cpuSampleIncreased o.cpu st.last_cpu = true
        · rw [if_pos c2, if_pos c2]
        · rw [if_neg c2, if_neg c2, la1]
  refine ⟨⟨?_, ?_, ?_, ?_, ?_⟩, ?_⟩
  · intro h
    rw [hchar]
    split_ifs <;> linarith [horder.1, horder.2.1, horder.2.2]
  · intro h
    rw [hchar]
    split_ifs <;> linarith [horder.1, horder.2.1, horder.2.2]
  · intro h
    rw [hchar]
    split_ifs <;> linarith [horder.1, horder.2.1, horder.2.2]
  · intro h
    rw [hchar, if_pos h]
  · intro h1 h2 h3 h4
    rw [hchar, if_neg h4]
    rw [if_neg (by simp [h3]), if_neg (by simp [h2]), if_neg h1]
  · intro s hs hpos h1 h2 h3 h4 hfar
    have hstall : (heartbeatStage (probeStage probe
        (treeStage (cpuStage (sizeStage st o) o) o) o) o).stall_timeout =
        st.stall_timeout := by
      rw [heartbeatStage_stall, probeStage_stall, f3.2.2, f2.2.2.2,
        f1.2.2.2.2]
    have hla : (heartbeatStage (probeStage probe
        (treeStage (cpuStage (sizeStage st o) o) o) o) o).last_activity =
        st.last_activity := by
      rw [la5, la4, if_neg h4, la3, if_neg (by simp [h3]), la2,
        if_neg (by simp [h2]), la1, if_neg h1]
    refine ⟨{ (heartbeatStage (probeStage probe
        (treeStage (cpuStage (sizeStage st o) o) o) o) o) with
          timeout_value := some s }, ?_, rfl⟩
    rw [hpoll, hbody]
    exact stallCheck_fires _ o s (by rw [hstall, hs]) hpos
      (by rw [hla]; exact hfar)

/-- An expired wall deadline terminates the iteration and records the
wall limit as the timeout value. -/
theorem pollIter_wall_fires (probe : String) (st : PollState) (o : PollObs)
    (d : ℚ) (hd : st.deadline = some d) (hle : d - o.now0 ≤ 0) :
    pollIter probe st o =
      PollStep.timedOut LimitKind.wall
        { st with timeout_value := st.timeout } := by
  unfold pollIter
  rw [hd]
  simp [hle]

/-- The sampling and heartbeat blocks preserve the configured stall
limit. -/
theorem stages_stall_timeout_preserved (probe : String) (st : PollState)
    (o : PollObs) :
    (heartbeatStage (probeStage probe
      (treeStage (cpuStage (sizeStage st o) o) o) o) o).stall_timeout =
      st.stall_timeout := by
  rw [heartbeatStage_stall, probeStage_stall,
    (treeStage_fields _ o).2.2, (cpuStage_fields _ o).2.2.2,
    (sizeStage_fields _ o).2.2.2.2]

/-- The stall check never reports a wall timeout. -/
theorem stallCheck_not_wall (st : PollState) (o : PollObs) (st' : PollState) :
    stallCheck st o ≠ PollStep.timedOut LimitKind.wall st' := by
  unfold stallCheck
  split
  · split
    · split
      · intro h
        injection h with hk
        exact LimitKind.noConfusion hk
      · intro h
        exact PollStep.noConfusion h
    · intro h
      exact PollStep.noConfusion h
  · intro h
    exact PollStep.noConfusion h

/-- The loop body after the wall check never reports a wall timeout. -/
theorem pollBody_not_wall (probe : String) (st : PollState) (o : PollObs)
    (st' : PollState) :
    pollBody probe st o ≠ PollStep.timedOut LimitKind.wall st' := by
  unfold pollBody
  split
  · intro h
    exact PollStep.noConfusion h
  · exact stallCheck_not_wall _ o st'

/-- A wall termination always records the wall limit as the timeout
value. -/
theorem pollIter_wall_tv (probe : String) (st : PollState) (o : PollObs)
    (st' : PollState)
    (h : pollIter probe st o = PollStep.timedOut LimitKind.wall st') :
    st'.timeout_value = st.timeout := by
  unfold pollIter at h
  split at h
  · split at h
    · injection h with hk hst
      rw [← hst]
    · exact absurd h (pollBody_not_wall probe st o st')
  · exact absurd h (pollBody_not_wall probe st o st')

/-- A stall termination of the stall check records the stall limit. -/
theorem stallCheck_stall_tv (st : PollState) (o : PollObs) (st' : PollState)
    (h : stallCheck st o = PollStep.timedOut LimitKind.stall st') :
    st'.timeout_value = st.stall_timeout := by
  unfold stallCheck at h
  split at h
  · rename_i s hs
    split at h
    · split at h
      · injection h with hk hst
        rw [← hst, hs]
      · exact PollStep.noConfusion h
    · exact PollStep.noConfusion h
  · exact PollStep.noConfusion h

/-- A stall termination of the loop body records the configured stall
limit. -/
theorem pollBody_stall_tv (probe : String) (st : PollState) (o : PollObs)
    (st' : PollState)
    (h : pollBody probe st o = PollStep.timedOut LimitKind.stall st') :
    st'.timeout_value = st.stall_timeout := by
  unfold pollBody at h
  split at h
  · exact PollStep.noConfusion h
  · rw [stallCheck_stall_tv _ o st' h, stages_stall_timeout_preserved]

/-- A stall termination of one iteration records the configured stall
limit. -/
theorem pollIter_stall_tv (probe : String) (st : PollState) (o : PollObs)
    (st' : PollState)
    (h : pollIter probe st o = PollStep.timedOut LimitKind.stall st') :
    st'.timeout_value = st.stall_timeout := by
  unfold pollIter at h
  split at h
  · split at h
    · injection h with hk
      exact LimitKind.noConfusion hk
    · exact pollBody_stall_tv probe st o st' h
  · exact pollBody_stall_tv probe st o st' h

/-- C4 (amended): on forced termination the supervisor records the
fired limit's duration — the wall limit on wall expiry, the stall
limit on stall expiry — and raises `TimeoutExpired` carrying the full
captured partial stdout and stderr (non-empty whenever the subprocess
wrote anything); `run` re-raises it unchanged when no fallback is
configured.  Which limit fired is only announced on the diagnostic
stream, not recorded in the failure value. -/
theorem c4_timeout_failure_payload (probe cmd : String) (st : PollState)
    (o : PollObs) (tv : Option ℚ) (out err : String) (rc : Int) :
    (∀ st', pollIter probe st o = PollStep.timedOut LimitKind.wall st' →
       st'.timeout_value = st.timeout) ∧
    (∀ st', pollIter probe st o = PollStep.timedOut LimitKind.stall st' →
       st'.timeout_value = st.stall_timeout) ∧
    finishExecute cmd true tv out err rc =
      Except.error { cmd := cmd, timeout := tv,
                     output := out, stderr := err } ∧
    (out ≠ "" → ∀ e, finishExecute cmd true tv out err rc = Except.error e →
       e.output ≠ "") ∧
    (∀ (env : ExecEnv) (r : Reviewer) (e : TimeoutExpired),
       env r = ExecOutcome.timeout e → r.fallback = none →
       Reviewer.run env r = Except.error e) := by
  refine ⟨fun st' h => pollIter_wall_tv probe st o st' h,
          fun st' h => pollIter_stall_tv probe st o st' h, rfl, ?_, ?_⟩
  · intro hout e he
    rw [show finishExecute cmd true tv out err rc =
      Except.error ⟨cmd, tv, out, err⟩ from rfl] at he
    injection he with he'
    rw [← he']
    exact hout
  · intro env r e henv hfb
    cases r with
    | mk n c p fb rlf =>
      simp only [Reviewer.fallback] at hfb
      subst hfb
      rw [run_timeout_eq env henv]
      rfl

/-- A supervisor state whose wall deadline has been reached. -/
def wallPollState : PollState :=
  { timeout := some 600, stall_timeout := none, heartbeat_secs := none,
    deadline := some 600, next_heartbeat := none, last_activity := 0,
    last_output := 0, last_size := 0, last_cpu := none,
    last_cpu_tree := none, probe_state := initProbeState "generic",
    last_progress_emit := 0, last_progress_count := 0,
    timeout_value := some 600 }

/-- An iteration observation at the wall deadline. -/
def wallPollObs : PollObs :=
  { now0 := 600, exitedDuringWait := false, size := none, tSize := 0,
    cpu := none, tCpu := 0, cpuTree := none, tCpuTree := 0,
    stdoutContent := "", tProbe := 0, tProbe2 := 0, tAfter := 0 }

/-- A supervisor state with only a stall limit configured. -/
def stallPollState : PollState :=
  { timeout := none, stall_timeout := some 600, heartbeat_secs := none,
    deadline := none, next_heartbeat := none, last_activity := 0,
    last_output := 0, last_size := 0, last_cpu := none,
    last_cpu_tree := none, probe_state := initProbeState "generic",
    last_progress_emit := 0, last_progress_count := 0,
    timeout_value := none }

/-- An iteration observation with no activity for a full stall
period. -/
def stallPollObs : PollObs :=
  { now0 := 0, exitedDuringWait := false, size := none, tSize := 0,
    cpu := none, tCpu := 0, cpuTree := none, tCpuTree := 0,
    stdoutContent := "", tProbe := 0, tProbe2 := 0, tAfter := 600 }

/-- C4 (counterexample): a wall-fired termination with limit 600 and a
stall-fired termination with limit 600 raise identical failure
values, so the raised failure does not record which limit fired —
refuting the claim that it does. -/
theorem c4_counterexample :
    (pollLoop "generic" wallPollState [wallPollObs]).fst =
      some LimitKind.wall ∧
    (pollLoop "generic" stallPollState [stallPollObs]).fst =
      some LimitKind.stall ∧
    executeModel "generic" "cmd" wallPollState [wallPollObs]
        "out" "err" 0 =
      executeModel "generic" "cmd" stallPollState [stallPollObs]
        "out" "err" 0 := by
  have hw := pollIter_wall_fires "generic" wallPollState wallPollObs 600
    rfl (by show (600:ℚ) - 600 ≤ 0; norm_num)
  have hw2 : pollIter "generic" wallPollState wallPollObs =
      PollStep.timedOut LimitKind.wall
        { wallPollState with timeout_value := some 600 } := by
    rw [hw]
    rfl
  have hwl : pollLoop "generic" wallPollState [wallPollObs] =
      (some LimitKind.wall,
       { wallPollState with timeout_value := some 600 }) := by
    simp only [pollLoop]
    rw [hw2]
  have hsc := stallCheck_fires stallPollState stallPollObs 600 rfl
    (by show (0:ℚ) < 600; norm_num)
    (by show (600:ℚ) ≤ 600 - 0; norm_num)
  have hsi : pollIter "generic" stallPollState stallPollObs =
      PollStep.timedOut LimitKind.stall
        { stallPollState with timeout_value := some 600 } := by
    show stallCheck stallPollState stallPollObs = _
    exact hsc
  have hsl : pollLoop "generic" stallPollState [stallPollObs] =
      (some LimitKind.stall,
       { stallPollState with timeout_value := some 600 }) := by
    simp only [pollLoop]
    rw [hsi]
  refine ⟨by rw [hwl], by rw [hsl], ?_⟩
  show finishExecute "cmd"
      (pollLoop "generic" wallPollState [wallPollObs]).fst.isSome
      (pollLoop "generic" wallPollState [wallPollObs]).snd.timeout_value
      "out" "err" 0 =
    finishExecute "cmd"
      (pollLoop "generic" stallPollState [stallPollObs]).fst.isSome
      (pollLoop "generic" stallPollState [stallPollObs]).snd.timeout_value
      "out" "err" 0
  rw [hwl, hsl]
  rfl

/-- C4 (witness): a concrete forced termination raises a failure
carrying the limit and the non-empty partial output. -/
theorem c4_timeout_failure_payload_witness :
    finishExecute "cmd" true (some 600) "some output" "perr" 0 =
      Except.error { cmd := "cmd", timeout := some 600,
                     output := "some output", stderr := "perr" } ∧
    ∀ e, finishExecute "cmd" true (some 600) "some output" "perr" 0 =
        Except.error e → e.output ≠ "" := by
  have h := c4_timeout_failure_payload "generic" "cmd" wallPollState
    wallPollObs (some 600) "some output" "perr" 0
  exact ⟨h.2.2.1, h.2.2.2.1 (by decide)⟩

/-- C2 (witness): a concrete silent subprocess is stall-terminated
with the configured limit recorded, although no wall deadline is
configured at all. -/
theorem c2_stall_clock_union_witness :
    ∃ st', pollIter "generic" stallPollState stallPollObs =
        PollStep.timedOut LimitKind.stall st' ∧
      st'.timeout_value = some 600 :=
  (c2_stall_clock_union "generic" stallPollState stallPollObs rfl
      (fun d h => Option.noConfusion h)
      ⟨le_refl 0, le_refl 0, le_refl 0⟩).2
    600 rfl (by show (0:ℚ) < 600; norm_num) (by decide) rfl rfl (by decide)
    (by show (600:ℚ) ≤ 600 - 0; norm_num)

end AgentCommon
